import Mathlib

/-!
SponsorSync: the page behaviour of `static/js/main.js`.

A shallow embedding of the handlers of `static/js/main.js` whose behaviour the
specification makes claims about: the match-score animation, the per-field
validation feedback, the badge updater and the local-storage autosave.

Conventions of the embedding.
* A JavaScript number is an IEEE 754 binary64 number.  A non-negative integer
  is a `Nat` that is its own rounding to 53 significant bits; a non-negative
  number in general is the numerator of a fraction over `2 ^ 1074`, the
  smallest positive number being `2 ^ -1074`; `Infinity` and `NaN` are values
  of their own.  Sums and quotients are rounded to the nearest number, ties to
  the even significand.
* The text of a number (`String(x)`), the selector engine, the members that
  objects inherit and the value sanitization of form controls belong to the
  browser and are parameters.
* A DOM element is a record of the properties the handler reads or writes.
* A timer is a loop with explicit fuel: one unit of fuel is one firing of the
  interval callback, and `none` means that the timer is still running when the
  fuel is used up.
-/

namespace SponsorSync

/-! ## JavaScript numbers -/

/-- The quotient `a / u` of two naturals rounded to the nearest natural, a tie
going to the even neighbour, for `u > 0`. -/
def roundHalfEven (a u : Nat) : Nat :=
  let q := a / u
  let r := a % u
  if 2 * r < u then q
  else if u < 2 * r then q + 1
  else if q % 2 = 0 then q else q + 1

/-- The number of halvings that bring `n` below two, with fuel. -/
def bitIndex : Nat → Nat → Nat
  | 0, _ => 0
  | fuel + 1, n => if 2 ≤ n then bitIndex fuel (n / 2) + 1 else 0

/-- The position of the leading bit of `n`: the `k` with `2 ^ k ≤ n < 2 ^ (k + 1)`
for `n > 0`, and zero for zero. -/
def log2 (n : Nat) : Nat := bitIndex n n

/-- The natural with at most 53 significant bits nearest to `n`, a tie going to
the even significand: the rounding of IEEE 754 binary64 on a non-negative
integer, before the overflow test. -/
def roundNat (n : Nat) : Nat :=
  let shift := log2 n - 52
  roundHalfEven n (2 ^ shift) * 2 ^ shift

/-- The numerator over `2 ^ 1074` of the binary64 number nearest to `a / b`, for
`b > 0`: the quotient is rounded to 53 significant bits, and to a multiple of
`2 ^ -1074` where it is subnormal. -/
def divDouble (a b : Nat) : Nat :=
  let scaled := a * 2 ^ 1074
  let shift := log2 (scaled / b) - 52
  roundHalfEven scaled (b * 2 ^ shift) * 2 ^ shift

/-- `Math.ceil` of the number `n / 2 ^ 1074`. -/
def ceilDyadic (n : Nat) : Nat := (n + 2 ^ 1074 - 1) / 2 ^ 1074

/-- `Math.ceil(targetValue / 20)` for a finite target, line 204. -/
def incrementNat (targetValue : Nat) : Nat := ceilDyadic (divDouble targetValue 20)

/-- A number that is a non-negative integer or `Infinity`. -/
inductive JsNat where
  | fin (n : Nat)
  | inf
  deriving DecidableEq, Repr

/-- The Number value of a non-negative integer: its rounding, and `Infinity`
from `2 ^ 1024` on. -/
def toNumber (n : Nat) : JsNat :=
  if roundNat n < 2 ^ 1024 then .fin (roundNat n) else .inf

/-- The sum `a + b` of two such numbers. -/
def JsNat.add : JsNat → JsNat → JsNat
  | .fin a, .fin b => toNumber (a + b)
  | _, _ => .inf

/-- The comparison `a >= b`. -/
def JsNat.ge : JsNat → JsNat → Bool
  | .inf, _ => true
  | .fin _, .inf => false
  | .fin a, .fin b => decide (b ≤ a)

/-- The per-tick increment `Math.ceil(targetValue / 20)`, line 204. -/
def increment : JsNat → JsNat
  | .fin t => .fin (incrementNat t)
  | .inf => .inf

/-- The interval callback of lines 208-221, run until `clearInterval`.  The
arguments are the fuel and `currentValue` before the tick; the result lists the
value displayed by each tick, the last one being the tick that clears the
timer. -/
def tickLoop (targetValue inc : JsNat) : Nat → JsNat → Option (List JsNat)
  | 0, _ => none
  | fuel + 1, currentValue =>
    let next := currentValue.add inc
    if next.ge targetValue then some [targetValue]
    else (tickLoop targetValue inc fuel next).map (fun vs => next :: vs)

/-- A non-negative number: `NaN`, `Infinity`, or the finite number
`n / 2 ^ 1074`; every finite non-negative binary64 number has this form. -/
inductive JsNum where
  | nan
  | inf
  | fin (n : Nat)
  deriving DecidableEq, Repr

/-- An integer-valued number among all numbers. -/
def JsNat.toNum : JsNat → JsNum
  | .fin n => .fin (n * 2 ^ 1074)
  | .inf => .inf

/-- The quotient `a / b` of two non-negative numbers. -/
def jsDiv : JsNum → JsNum → JsNum
  | .nan, _ => .nan
  | _, .nan => .nan
  | .inf, .inf => .nan
  | .inf, .fin _ => .inf
  | .fin _, .inf => .fin 0
  | .fin a, .fin b =>
    if b = 0 then (if a = 0 then .nan else .inf)
    else if divDouble a b < 2 ^ 1024 * 2 ^ 1074 then .fin (divDouble a b) else .inf

/-- The tick interval `duration / (targetValue / increment)` with
`duration = 1000`, lines 205-206. -/
def stepTime (targetValue : JsNat) : JsNum :=
  jsDiv (.fin (1000 * 2 ^ 1074)) (jsDiv targetValue.toNum (increment targetValue).toNum)

/-! ## Match score animation (`animateMatchScore`, lines 197-223) -/

/-- The element handed to `animateMatchScore`: its text, its class list and the
inline `style.width`. -/
structure ScoreElement where
  textContent : String
  classList : List String
  width : String
  deriving DecidableEq, Repr

/-- An attempt of the pattern `(\d+)%` at the head of `s`: the greedy digit run,
which has to be non-empty and followed by a percent sign.  Giving back digits
cannot help, the character after a shorter run being a digit.  The result is the
digit run and the text after the percent sign. -/
def matchAt (s : List Char) : Option (List Char × List Char) :=
  let ds := s.takeWhile Char.isDigit
  if ds = [] then none
  else
    match s.dropWhile Char.isDigit with
    | '%' :: tail => some (ds, tail)
    | _ => none

/-- The leftmost match of `/(\d+)%/` in the text (`text.match`, line 199): the
text before the match, the captured digits, and the text after the match. -/
def scoreMatch : List Char → Option (List Char × List Char × List Char)
  | [] => none
  | c :: cs =>
    match matchAt (c :: cs) with
    | some (ds, tail) => some ([], ds, tail)
    | none => (scoreMatch cs).map (fun r => (c :: r.1, r.2.1, r.2.2))

/-- The integer written by a run of decimal digits. -/
def decimalValue (ds : List Char) : Nat :=
  ds.foldl (fun n c => 10 * n + (c.toNat - 48)) 0

/-- The number `parseInt(match[1])` of line 202: the integer written by the
digits, as a Number.  (Past twenty digits the language lets an engine
approximate the integer before rounding; the model rounds the integer itself.) -/
def parseInt (ds : List Char) : JsNat := toNumber (decimalValue ds)

/-- The element as one tick leaves it (lines 215-220): the first match of
`\d+%` in the original text is replaced by the current value and a percent
sign, and a progress bar also gets that as its width.  The conversion of a
number to text is the parameter `numberText`. -/
def display (numberText : JsNat → String) (element : ScoreElement)
    (before after : List Char) (currentValue : JsNat) : ScoreElement :=
  { element with
    textContent := String.mk (before ++ (numberText currentValue).toList ++ '%' :: after)
    width := if "progress-bar" ∈ element.classList then numberText currentValue ++ "%"
             else element.width }

/-- The successive states `animateMatchScore` puts the element in, one per tick.
Without a match no timer is started and nothing is displayed.  The interval
handed to `setInterval` does not enter: the browser takes a `NaN` interval as
zero and fires all the same. -/
def animateMatchScore (numberText : JsNat → String) (element : ScoreElement) (fuel : Nat) :
    Option (List ScoreElement) :=
  match scoreMatch element.textContent.toList with
  | none => some []
  | some (before, ds, after) =>
    (tickLoop (parseInt ds) (increment (parseInt ds)) fuel (.fin 0)).map
      (fun vs => vs.map (display numberText element before after))

/-- The text of a number: the decimal notation of an integer below `10 ^ 21`
and `Infinity` as the language fixes them, and what `other` says for the
integers from `10 ^ 21` on, which are written with an exponent. -/
def smallNumberText (other : JsNat → String) : JsNat → String
  | .fin n => if n < 10 ^ 21 then toString n else other (.fin n)
  | .inf => "Infinity"

/-! ## Validation feedback (`initializeFormValidation`, lines 66-86) -/

/-- The method `classList.add(token)`: the token is appended unless present. -/
def classAdd (classList : List String) (token : String) : List String :=
  if token ∈ classList then classList else classList ++ [token]

/-- The method `classList.remove(token)`. -/
def classRemove (classList : List String) (token : String) : List String :=
  classList.filter (fun c => c ≠ token)

/-- The blur listener of lines 68-76 on the class list of the field;
`checkValidity` is the result of `this.checkValidity()` at the event. -/
def validationBlur (checkValidity : Bool) (classList : List String) : List String :=
  if checkValidity then
    classAdd (classRemove classList "is-invalid") "is-valid"
  else
    classAdd (classRemove classList "is-valid") "is-invalid"

/-- The input listener of lines 78-85 on the class list of the field. -/
def validationInput (checkValidity : Bool) (classList : List String) : List String :=
  if "is-invalid" ∈ classList then
    if checkValidity then
      classAdd (classRemove classList "is-invalid") "is-valid"
    else classList
  else classList

/-- An event on a tracked field, with what `checkValidity()` returns then. -/
inductive FieldEvent where
  | blur (checkValidity : Bool)
  | input (checkValidity : Bool)
  deriving DecidableEq, Repr

/-- The listener run by an event. -/
def fieldStep (classList : List String) : FieldEvent → List String
  | .blur ok => validationBlur ok classList
  | .input ok => validationInput ok classList

/-- The class list after a sequence of events. -/
def fieldRun (classList : List String) (events : List FieldEvent) : List String :=
  events.foldl fieldStep classList

/-! ## Badge count (`updateBadgeCount`, lines 399-409) -/

/-- A number of any sign: the sign and the magnitude.  Every binary64 number has
this form, the two zeros and the two infinities included. -/
structure JsNumber where
  negative : Bool
  magnitude : JsNum
  deriving DecidableEq, Repr

/-- The comparison `count > 0`. -/
def JsNumber.gtZero (count : JsNumber) : Bool :=
  !count.negative &&
    (match count.magnitude with
     | .nan => false
     | .inf => true
     | .fin n => n != 0)

/-- The comparison `count <= 0`. -/
def JsNumber.leZero (count : JsNumber) : Bool :=
  match count.magnitude with
  | .nan => false
  | .inf => count.negative
  | .fin n => count.negative || n == 0

/-- The number of an integer. -/
def JsNumber.ofInt (z : Int) : JsNumber :=
  { negative := decide (z < 0), magnitude := .fin (z.natAbs * 2 ^ 1074) }

/-- An element of the document, with the properties `updateBadgeCount` writes
(`textContent`, `style.display`) and its class list for selectors to read. -/
structure BadgeElement where
  classList : List String
  textContent : String
  display : String
  deriving DecidableEq, Repr

/-- The body of the `forEach` of lines 401-408 on one badge.  The conversion of
the count to text by the assignment to `textContent` is the parameter
`numberText`. -/
def setBadge (numberText : JsNumber → String) (count : JsNumber) (badge : BadgeElement) :
    BadgeElement :=
  { badge with
    textContent := numberText count
    display := if count.gtZero then "inline" else "none" }

/-- The element at position `i` replaced by its image under `f`. -/
def modifyAt {α : Type} (f : α → α) : Nat → List α → List α
  | _, [] => []
  | 0, x :: xs => f x :: xs
  | i + 1, x :: xs => x :: modifyAt f i xs

/-- The positions, in document order, of the elements matching the selector:
the static node list of `document.querySelectorAll(selector)`.  The selector
engine is the parameter `sel`. -/
def querySelectorAll (sel : String → BadgeElement → Bool) (selector : String)
    (document : List BadgeElement) : List Nat :=
  (List.range document.length).filter
    (fun i => match document[i]? with
      | some e => sel selector e
      | none => false)

/-- The document after `updateBadgeCount(selector, count)`. -/
def updateBadgeCount (numberText : JsNumber → String) (sel : String → BadgeElement → Bool)
    (document : List BadgeElement) (selector : String) (count : JsNumber) :
    List BadgeElement :=
  (querySelectorAll sel selector document).foldl
    (fun doc i => modifyAt (setBadge numberText count) i doc) document

/-- The text of a number: the decimal notation of an integer of absolute value
below `10 ^ 21`, `Infinity`, `-Infinity` and `NaN` as the language fixes them,
and what `other` says for every other number. -/
def integerText (other : JsNumber → String) (count : JsNumber) : String :=
  match count.magnitude with
  | .nan => "NaN"
  | .inf => if count.negative then "-Infinity" else "Infinity"
  | .fin n =>
    if n % 2 ^ 1074 = 0 ∧ n / 2 ^ 1074 < 10 ^ 21 then
      (if count.negative && n != 0 then "-" else "") ++ toString (n / 2 ^ 1074)
    else other count

/-! ## Autosave (`initializeAutoSave`, lines 449-489) -/

/-- A form control: its `name`, its `type` and its `value`. -/
structure Input where
  name : String
  type : String
  value : String
  deriving DecidableEq, Repr

/-- What lines 462-463 observe of a property value `data[input.name]`: its
truthiness, and the text it becomes when it is assigned to `input.value`. -/
structure PropertyView where
  truthy : Bool
  text : String
  deriving DecidableEq, Repr

/-- What `JSON.parse` returns, as far as line 462 can tell: `null`, whose
properties cannot be read, or a value that answers every property name, own
and inherited members alike, `none` standing for `undefined`. -/
inductive ParsedJson where
  | null
  | value (get : String → Option PropertyView)

/-- The parts of the browser that the autosave code relies on. -/
structure Browser where
  /-- The member that a plain object inherits from `Object.prototype` under a
  name, such as `constructor`, `toString` or `__proto__`. -/
  objectPrototype : String → Option PropertyView
  /-- The value a control other than a file input holds after the assignment
  `input.value = text`: the text after the value sanitization of its type, or
  what the selection of a matching option leaves. -/
  assignedValue : Input → String → String

/-- A text held in `localStorage`, given by what `JSON.parse` makes of it:
either it throws a `SyntaxError` on the text, or it reads the text as a value.
A text that is read as a value is not empty. -/
inductive StoredText where
  | malformed (raw : String)
  | json (data : ParsedJson)

/-- The truthiness of a stored text, `if (savedData)`, line 458. -/
def StoredText.nonEmpty : StoredText → Bool
  | .malformed raw => raw != ""
  | .json _ => true

/-- The call `JSON.parse(savedData)`, line 460. -/
def jsonParse : StoredText → Except String ParsedJson
  | .malformed _ => .error "SyntaxError"
  | .json data => .ok data

/-- The value of the own property `name` of a record, if it has one. -/
def ownProperty {β : Type} (name : String) : List (String × β) → Option β
  | [] => none
  | (k, v) :: rest => if k = name then some v else ownProperty name rest

/-- The call `JSON.stringify(formData)`, line 480, on a record of strings: the
text that `JSON.parse` reads back as an object with the same own properties,
which inherits the members of `Object.prototype` under every other name. -/
def jsonStringify (browser : Browser) (formData : List (String × String)) : StoredText :=
  .json (.value (fun name =>
    match ownProperty name formData with
    | some v => some { truthy := v != "", text := v }
    | none => browser.objectPrototype name))

/-- The browser's `localStorage`: the text stored under each key.  The storage
is taken to have room for what is written. -/
abbrev Storage := String → Option StoredText

/-- The call `localStorage.setItem(key, text)`. -/
def Storage.setItem (storage : Storage) (key : String) (text : StoredText) : Storage :=
  fun k => if k = key then some text else storage k

/-- The call `localStorage.removeItem(key)`. -/
def Storage.removeItem (storage : Storage) (key : String) : Storage :=
  fun k => if k = key then none else storage k

/-- The assignment `formData[name] = value` of a string on a record: under the
name `__proto__` it reaches the setter of `Object.prototype`, which ignores a
string, and creates no property; under any other name it sets the own property.
The record lists its properties in the order of their creation; the order in
which the language enumerates them (integer-like names first) is not observed
by any property read. -/
def setProp (formData : List (String × String)) (name value : String) :
    List (String × String) :=
  if name = "__proto__" then formData
  else
    match formData with
    | [] => [(name, value)]
    | (k, v) :: rest =>
      if k = name then (name, value) :: rest else (k, v) :: setProp rest name value

/-- The guard of line 476: the field has a non-empty name and is not
password-typed. -/
def persisted (inp : Input) : Bool := inp.name != "" && inp.type != "password"

/-- The body of the inner `forEach` of lines 475-479 on one field. -/
def formDataStep (formData : List (String × String)) (inp : Input) : List (String × String) :=
  if persisted inp then setProp formData inp.name inp.value else formData

/-- The record built by lines 474-479 from the current state of the fields. -/
def buildFormData (inputs : List Input) : List (String × String) :=
  inputs.foldl formDataStep []

/-- The value of the last field of the given name that creates a property of
the record, if there is one. -/
def lastPersisted (name : String) : List Input → Option String
  | [] => none
  | x :: xs =>
    match lastPersisted name xs with
    | some v => some v
    | none =>
      if persisted x = true ∧ x.name ≠ "__proto__" ∧ x.name = name then some x.value else none

/-- The input listener of lines 473-481. -/
def autoSaveInput (browser : Browser) (formId : String) (inputs : List Input)
    (storage : Storage) : Storage :=
  storage.setItem ("autosave_" ++ formId) (jsonStringify browser (buildFormData inputs))

/-- The submit listener of lines 485-487. -/
def autoSaveSubmit (formId : String) (storage : Storage) : Storage :=
  storage.removeItem ("autosave_" ++ formId)

/-- The property read `data[name]`, line 462: on `null` it throws a
`TypeError`. -/
def getProp : ParsedJson → String → Except String (Option PropertyView)
  | .null, _ => .error "TypeError: cannot read properties of null"
  | .value get, name => .ok (get name)

/-- The assignment `input.value = text`, line 463: a file input throws an
`InvalidStateError` unless the text is empty, which clears it. -/
def assignValue (browser : Browser) (inp : Input) (text : String) : Except String Input :=
  if inp.type = "file" then
    if text = "" then .ok { inp with value := "" }
    else .error "InvalidStateError"
  else .ok { inp with value := browser.assignedValue inp text }

/-- The body of the `forEach` of lines 461-465 on one field, once `data[name]`
has been read. -/
def restoreInput (browser : Browser) (saved : Option PropertyView) (inp : Input) :
    Except String Input :=
  match saved with
  | some v =>
    if v.truthy && inp.type != "password" then assignValue browser inp v.text
    else .ok inp
  | none => .ok inp

/-- The `forEach` of lines 461-465: the fields as the loop leaves them, and the
exception that ended it, if any. -/
def restoreInputs (browser : Browser) (data : ParsedJson) :
    List Input → List Input × Option String
  | [] => ([], none)
  | inp :: rest =>
    match getProp data inp.name with
    | .error e => (inp :: rest, some e)
    | .ok saved =>
      match restoreInput browser saved inp with
      | .error e => (inp :: rest, some e)
      | .ok restored =>
        let r := restoreInputs browser data rest
        (restored :: r.1, r.2)

/-- The load step of lines 457-469: the fields afterwards and the warnings
logged.  Every exception of the `try` block ends in the `catch` clause. -/
def loadSavedData (browser : Browser) (savedData : Option StoredText) (inputs : List Input) :
    List Input × List String :=
  match savedData with
  | none => (inputs, [])
  | some text =>
    if text.nonEmpty then
      match jsonParse text with
      | .error e => (inputs, ["Failed to load autosave data: " ++ e])
      | .ok data =>
        match restoreInputs browser data inputs with
        | (restored, none) => (restored, [])
        | (restored, some e) => (restored, ["Failed to load autosave data: " ++ e])
    else (inputs, [])

/-- A form: its `id` attribute (empty when absent) and its fields. -/
structure Form where
  id : String
  inputs : List Input
  deriving DecidableEq, Repr

/-- The form identifier of line 453; `random` is the text produced by
`Math.random().toString(36).substr(2, 9)`. -/
def resolveFormId (form : Form) (random : String) : String :=
  if form.id != "" then form.id else "form_" ++ random

/-- The page after `initializeAutoSave` has handled one form. -/
structure AutoSaveForm where
  formId : String
  inputs : List Input
  inputListeners : Bool
  submitListener : Bool
  warnings : List String
  deriving DecidableEq, Repr

/-- The body of the `forEach` of lines 452-488 for one form.  The result is
`.error` when an exception reaches the caller. -/
def initializeAutoSave (browser : Browser) (form : Form) (random : String)
    (storage : Storage) : Except String AutoSaveForm :=
  let formId := resolveFormId form random
  let savedData := storage ("autosave_" ++ formId)
  let loaded := loadSavedData browser savedData form.inputs
  .ok { formId := formId
        inputs := loaded.1
        inputListeners := true
        submitListener := true
        warnings := loaded.2 }

/-- A browser as the examples need it: its controls strip the line breaks of an
assigned text and keep the rest, as inputs of type text do, and plain objects
inherit the members of `Object.prototype`, functions being printed as V8 prints
them. -/
def sampleBrowser : Browser where
  objectPrototype := fun name =>
    if name = "__proto__" then some ⟨true, "[object Object]"⟩
    else if name = "constructor" then some ⟨true, "function Object() \x7b [native code] \x7d"⟩
    else if name ∈ ["__defineGetter__", "__defineSetter__", "hasOwnProperty",
        "__lookupGetter__", "__lookupSetter__", "isPrototypeOf", "propertyIsEnumerable",
        "toString", "valueOf", "toLocaleString"] then
      some ⟨true, "function " ++ name ++ "() \x7b [native code] \x7d"⟩
    else none
  assignedValue := fun _ text =>
    String.mk (text.data.filter (fun c => c != '\n' && c != '\r'))

/-! ### Lemmas on rounding -/

theorem bitIndex_eq (fuel : Nat) : ∀ n, n ≤ fuel → bitIndex fuel n = Nat.log2 n := by
  induction fuel with
  | zero =>
    intro n hn
    have : n = 0 := by omega
    subst this
    simp [bitIndex, Nat.log2_zero]
  | succ k ih =>
    intro n hn
    rw [bitIndex, Nat.log2]
    by_cases h : 2 ≤ n
    · have : n / 2 ≤ k := by omega
      simp [h, ih _ this]
    · simp [h]

theorem log2_eq (n : Nat) : log2 n = Nat.log2 n := bitIndex_eq n n (Nat.le_refl n)

theorem pow_log2_le (n : Nat) (h : n ≠ 0) : 2 ^ log2 n ≤ n := by
  rw [log2_eq]; exact Nat.log2_self_le h

theorem log2_lt_of_lt (n k : Nat) (h : n < 2 ^ k) : log2 n < k ∨ n = 0 := by
  by_cases h0 : n = 0
  · exact Or.inr h0
  · left; rw [log2_eq]; exact (Nat.log2_lt h0).mpr h

theorem le_log2_of_le (n k : Nat) (h : 2 ^ k ≤ n) : k ≤ log2 n := by
  have h0 : n ≠ 0 := by
    have : 0 < 2 ^ k := Nat.two_pow_pos k
    omega
  rw [log2_eq]
  exact (Nat.le_log2 h0).mpr h

/-- The rounded quotient is within half a unit of the quotient. -/
theorem roundHalfEven_bounds (a u : Nat) (hu : 0 < u) :
    2 * (roundHalfEven a u * u) ≤ 2 * a + u ∧ 2 * a ≤ 2 * (roundHalfEven a u * u) + u := by
  have hdiv : u * (a / u) + a % u = a := Nat.div_add_mod a u
  have hmod : a % u < u := Nat.mod_lt a hu
  have e1 : a / u * u = u * (a / u) := Nat.mul_comm _ _
  have e2 : (a / u + 1) * u = u * (a / u) + u := by rw [Nat.add_mul, e1]; simp
  unfold roundHalfEven
  simp only
  split_ifs <;> (first | rw [e1] | rw [e2]) <;> omega

theorem roundHalfEven_exact (q u : Nat) (hu : 0 < u) : roundHalfEven (q * u) u = q := by
  unfold roundHalfEven
  simp [Nat.mul_div_cancel _ hu, Nat.mul_mod_left, hu]

theorem roundHalfEven_mul_right (a u c : Nat) (hc : 0 < c) :
    roundHalfEven (a * c) (u * c) = roundHalfEven a u := by
  unfold roundHalfEven
  simp only [Nat.mul_div_mul_right _ _ hc, Nat.mul_mod_mul_right]
  have h1 : (2 * (a % u * c) < u * c) ↔ (2 * (a % u) < u) := by
    rw [← Nat.mul_assoc]
    exact Nat.mul_lt_mul_right hc
  have h2 : (u * c < 2 * (a % u * c)) ↔ (u < 2 * (a % u)) := by
    rw [← Nat.mul_assoc]
    exact Nat.mul_lt_mul_right hc
  simp only [h1, h2]

/-- Integers below `2 ^ 53` are their own rounding. -/
theorem roundNat_of_lt (n : Nat) (h : n < 2 ^ 53) : roundNat n = n := by
  have hs : log2 n - 52 = 0 := by
    rcases log2_lt_of_lt n 53 h with h1 | h1
    · omega
    · subst h1; simp [log2, bitIndex]
  unfold roundNat
  simp only [hs, pow_zero, Nat.mul_one]
  have := roundHalfEven_exact n 1 (by norm_num)
  simpa using this

/-- The unit of the rounding of `n` is at most `n / 2 ^ 52`. -/
theorem unit_le (n : Nat) (h : 2 ^ 52 ≤ n) : 2 ^ (log2 n - 52) * 2 ^ 52 ≤ n := by
  have hk : 52 ≤ log2 n := le_log2_of_le n 52 h
  have h0 : n ≠ 0 := by
    have : 0 < 2 ^ 52 := Nat.two_pow_pos 52
    omega
  have := pow_log2_le n h0
  rw [← Nat.pow_add]
  have e : log2 n - 52 + 52 = log2 n := by omega
  rw [e]
  exact this

/-- The rounding of an integer loses at most the fraction `2 ^ -53` of it. -/
theorem roundNat_lower (n : Nat) : (2 ^ 53 - 1) * n ≤ 2 ^ 53 * roundNat n := by
  by_cases h : n < 2 ^ 53
  · rw [roundNat_of_lt n h]
    exact Nat.mul_le_mul_right n (by norm_num)
  · have h52 : 2 ^ 52 ≤ n := by
      have : (2 : Nat) ^ 52 ≤ 2 ^ 53 := by norm_num
      omega
    have hu := unit_le n h52
    have hb := (roundHalfEven_bounds n (2 ^ (log2 n - 52)) (Nat.two_pow_pos _)).2
    unfold roundNat
    simp only
    generalize roundHalfEven n (2 ^ (log2 n - 52)) * 2 ^ (log2 n - 52) = r at hb ⊢
    generalize 2 ^ (log2 n - 52) = u at hu hb
    norm_num at hu ⊢
    omega

theorem div_le_roundHalfEven (a u : Nat) : a / u ≤ roundHalfEven a u := by
  unfold roundHalfEven
  simp only
  split_ifs <;> omega

/-- From `2 ^ 53` on the rounding stays at `2 ^ 53` or above. -/
theorem roundNat_ge (n : Nat) (h : 2 ^ 53 ≤ n) : 2 ^ 53 ≤ roundNat n := by
  have hk : 53 ≤ log2 n := le_log2_of_le n 53 h
  have h52 : 2 ^ 52 ≤ n := by
    have : (2 : Nat) ^ 52 ≤ 2 ^ 53 := by norm_num
    omega
  have hu := unit_le n h52
  have hq : 2 ^ 52 ≤ n / 2 ^ (log2 n - 52) :=
    (Nat.le_div_iff_mul_le (Nat.two_pow_pos _)).mpr (by rw [Nat.mul_comm]; exact hu)
  have hm := div_le_roundHalfEven n (2 ^ (log2 n - 52))
  have hsh : 2 ^ 1 ≤ 2 ^ (log2 n - 52) := Nat.pow_le_pow_right (by norm_num) (by omega)
  unfold roundNat
  simp only
  calc 2 ^ 53 = 2 ^ 52 * 2 ^ 1 := by norm_num
    _ ≤ roundHalfEven n (2 ^ (log2 n - 52)) * 2 ^ (log2 n - 52) :=
        Nat.mul_le_mul (le_trans hq hm) hsh

/-- The rounded quotient times the divisor is within the fraction `2 ^ -53` of
the dividend, where the quotient has its 53 bits. -/
theorem divDouble_bounds (a b : Nat) (hb : 0 < b) (hq : 2 ^ 52 ≤ a * 2 ^ 1074 / b) :
    (2 ^ 53 - 1) * (a * 2 ^ 1074) ≤ 2 ^ 53 * (divDouble a b * b) ∧
    2 ^ 53 * (divDouble a b * b) ≤ (2 ^ 53 + 1) * (a * 2 ^ 1074) := by
  have hu := unit_le (a * 2 ^ 1074 / b) hq
  have hbq : b * (a * 2 ^ 1074 / b) ≤ a * 2 ^ 1074 := Nat.mul_div_le _ _
  have hU : b * 2 ^ (log2 (a * 2 ^ 1074 / b) - 52) * 2 ^ 52 ≤ a * 2 ^ 1074 := by
    calc b * 2 ^ (log2 (a * 2 ^ 1074 / b) - 52) * 2 ^ 52
        = b * (2 ^ (log2 (a * 2 ^ 1074 / b) - 52) * 2 ^ 52) := Nat.mul_assoc _ _ _
      _ ≤ b * (a * 2 ^ 1074 / b) := Nat.mul_le_mul_left b hu
      _ ≤ a * 2 ^ 1074 := hbq
  have hpos : 0 < b * 2 ^ (log2 (a * 2 ^ 1074 / b) - 52) :=
    Nat.mul_pos hb (Nat.two_pow_pos _)
  have hr := roundHalfEven_bounds (a * 2 ^ 1074) (b * 2 ^ (log2 (a * 2 ^ 1074 / b) - 52)) hpos
  have hN : divDouble a b * b
      = roundHalfEven (a * 2 ^ 1074) (b * 2 ^ (log2 (a * 2 ^ 1074 / b) - 52))
        * (b * 2 ^ (log2 (a * 2 ^ 1074 / b) - 52)) := by
    unfold divDouble
    simp only
    rw [Nat.mul_assoc, Nat.mul_comm (2 ^ _) b]
  rw [hN]
  generalize roundHalfEven (a * 2 ^ 1074) (b * 2 ^ (log2 (a * 2 ^ 1074 / b) - 52))
      * (b * 2 ^ (log2 (a * 2 ^ 1074 / b) - 52)) = x at hr ⊢
  generalize b * 2 ^ (log2 (a * 2 ^ 1074 / b) - 52) = u at hU hr
  generalize a * 2 ^ 1074 = y at hU hr ⊢
  norm_num at hU ⊢
  omega

theorem le_ceilDyadic (n : Nat) : n ≤ ceilDyadic n * 2 ^ 1074 := by
  unfold ceilDyadic
  have hpos : 0 < 2 ^ 1074 := Nat.two_pow_pos 1074
  have h := Nat.div_add_mod (n + 2 ^ 1074 - 1) (2 ^ 1074)
  have hm := Nat.mod_lt (n + 2 ^ 1074 - 1) hpos
  rw [Nat.mul_comm] at h
  generalize (n + 2 ^ 1074 - 1) / 2 ^ 1074 * 2 ^ 1074 = y at h ⊢
  generalize (n + 2 ^ 1074 - 1) % 2 ^ 1074 = z at h hm
  generalize 2 ^ 1074 = s at *
  omega

theorem ceilDyadic_lt (n : Nat) : ceilDyadic n * 2 ^ 1074 < n + 2 ^ 1074 := by
  unfold ceilDyadic
  have hpos : 0 < 2 ^ 1074 := Nat.two_pow_pos 1074
  have h := Nat.div_mul_le_self (n + 2 ^ 1074 - 1) (2 ^ 1074)
  generalize (n + 2 ^ 1074 - 1) / 2 ^ 1074 * 2 ^ 1074 = y at h ⊢
  generalize 2 ^ 1074 = s at *
  omega

theorem scale_ge : 2 ^ 52 * 20 ≤ 2 ^ 1074 := by
  calc 2 ^ 52 * 20 ≤ 2 ^ 57 := by norm_num
    _ ≤ 2 ^ 1074 := Nat.pow_le_pow_right (by norm_num) (by norm_num)

theorem quotient20_has_bits (t : Nat) (ht : 1 ≤ t) : 2 ^ 52 ≤ t * 2 ^ 1074 / 20 := by
  apply (Nat.le_div_iff_mul_le (by norm_num)).mpr
  calc 2 ^ 52 * 20 ≤ 2 ^ 1074 := scale_ge
    _ = 1 * 2 ^ 1074 := (Nat.one_mul _).symm
    _ ≤ t * 2 ^ 1074 := Nat.mul_le_mul_right _ ht

/-- The increment is at least the fraction `1 - 2 ^ -53` of a twentieth of the
target. -/
theorem incrementNat_lower (t : Nat) (ht : 1 ≤ t) :
    (2 ^ 53 - 1) * t ≤ 2 ^ 53 * 20 * incrementNat t := by
  have hb := (divDouble_bounds t 20 (by norm_num) (quotient20_has_bits t ht)).1
  have hc := le_ceilDyadic (divDouble t 20)
  have hpos : 0 < 2 ^ 1074 := Nat.two_pow_pos 1074
  apply Nat.le_of_mul_le_mul_right _ hpos
  unfold incrementNat
  calc (2 ^ 53 - 1) * t * 2 ^ 1074 = (2 ^ 53 - 1) * (t * 2 ^ 1074) := Nat.mul_assoc _ _ _
    _ ≤ 2 ^ 53 * (divDouble t 20 * 20) := hb
    _ ≤ 2 ^ 53 * (ceilDyadic (divDouble t 20) * 2 ^ 1074 * 20) :=
        Nat.mul_le_mul_left _ (Nat.mul_le_mul_right _ hc)
    _ = 2 ^ 53 * 20 * ceilDyadic (divDouble t 20) * 2 ^ 1074 := by ring

theorem incrementNat_pos (t : Nat) (ht : 1 ≤ t) : 1 ≤ incrementNat t := by
  have h := incrementNat_lower t ht
  norm_num at h
  omega

theorem incrementNat_zero : incrementNat 0 = 0 := by
  decide!

/-- The ceiling of `m * c` over `p * c` is the ceiling of `m` over `p`. -/
theorem ceil_cancel (m p c : Nat) (hp : 0 < p) (hc : 0 < c) :
    (m * c + p * c - 1) / (p * c) = (m + p - 1) / p := by
  have hpc : 0 < p * c := Nat.mul_pos hp hc
  have hd := Nat.div_add_mod (m + p - 1) p
  have hm := Nat.mod_lt (m + p - 1) hp
  apply Nat.div_eq_of_lt_le
  · -- (m + p - 1) / p * (p * c) ≤ m * c + p * c - 1
    have h1 : (m + p - 1) / p * (p * c) = (p * ((m + p - 1) / p)) * c := by ring
    have h2 : p * ((m + p - 1) / p) ≤ m + p - 1 := Nat.mul_div_le _ _
    have h3 : (p * ((m + p - 1) / p)) * c ≤ (m + p - 1) * c := Nat.mul_le_mul_right c h2
    have h4 : (m + p - 1) * c + c = m * c + p * c := by
      have : m + p - 1 + 1 = m + p := by omega
      calc (m + p - 1) * c + c = (m + p - 1 + 1) * c := by ring
        _ = (m + p) * c := by rw [this]
        _ = m * c + p * c := by ring
    rw [h1]
    omega
  · -- m * c + p * c - 1 < ((m + p - 1) / p + 1) * (p * c)
    have h1 : ((m + p - 1) / p + 1) * (p * c) = (p * ((m + p - 1) / p) + p) * c := by ring
    have h2 : m + p - 1 < p * ((m + p - 1) / p) + p := by omega
    have h3 : m + p ≤ p * ((m + p - 1) / p) + p := by omega
    have h4 : (m + p) * c ≤ (p * ((m + p - 1) / p) + p) * c := Nat.mul_le_mul_right c h3
    have h5 : (m + p) * c = m * c + p * c := by ring
    rw [h1]
    omega

/-- Rounding `t * p / 20` and taking the ceiling over `p` gives the ceiling of
`t / 20`, once `p` is at least 16. -/
theorem ceil_round_twentieth (t p : Nat) (hp : 16 ≤ p) :
    (roundHalfEven (t * p) 20 + p - 1) / p = (t + 19) / 20 := by
  have hq := div_le_roundHalfEven (t * p) 20
  have hb := roundHalfEven_bounds (t * p) 20 (by norm_num)
  have ht : t = 20 * (t / 20) + t % 20 := (Nat.div_add_mod t 20).symm
  have hr : t % 20 < 20 := Nat.mod_lt t (by norm_num)
  have hprod : t * p = 20 * (t / 20 * p) + t % 20 * p := by
    conv_lhs => rw [ht]
    ring
  generalize roundHalfEven (t * p) 20 = m at hq hb
  generalize t / 20 = k at ht hprod
  generalize t % 20 = r at ht hr hprod
  rw [hprod] at hq hb
  have hrp : r * p ≤ 19 * p := Nat.mul_le_mul_right p (by omega)
  rcases Nat.eq_zero_or_pos r with h0 | h0
  · subst h0
    simp only [Nat.zero_mul, Nat.add_zero] at hb hq ht
    have hm : m = k * p := by omega
    have e : (t + 19) / 20 = k := by omega
    rw [e, hm]
    apply Nat.div_eq_of_lt_le
    · omega
    · have : (k + 1) * p = k * p + p := by ring
      omega
  · have hrp1 : p ≤ r * p := by
      calc p = 1 * p := (Nat.one_mul p).symm
        _ ≤ r * p := Nat.mul_le_mul_right p h0
    generalize r * p = y at hq hb hrp hrp1
    obtain ⟨x, hx⟩ : ∃ x, x = k * p := ⟨_, rfl⟩
    rw [← hx] at hq hb
    have e : (t + 19) / 20 = k + 1 := by omega
    have hlo : x + 1 ≤ m := by omega
    have hhi : m ≤ x + p := by omega
    rw [e]
    apply Nat.div_eq_of_lt_le
    · have : (k + 1) * p = k * p + p := by ring
      omega
    · have : (k + 1 + 1) * p = k * p + p + p := by ring
      omega

theorem pow_mul_twenty_le (n : Nat) : 2 ^ n * 20 ≤ 2 ^ (n + 5) := by
  rw [Nat.pow_add]
  exact Nat.mul_le_mul_left _ (by norm_num)

theorem two_pow_mul (m n : Nat) : 2 ^ m * 2 ^ n = 2 ^ (m + n) := by
  rw [Nat.pow_add]

theorem pow_lt_mul_twenty (n : Nat) : 2 ^ (n + 4) < 2 ^ n * 20 := by
  rw [Nat.pow_add]
  exact (Nat.mul_lt_mul_left (Nat.two_pow_pos n)).mpr (by norm_num)

/-- Up to `2 ^ 53` the increment is the exact ceiling of a twentieth of the
target. -/
theorem incrementNat_exact (t : Nat) (ht : t ≤ 2 ^ 53) : incrementNat t = (t + 19) / 20 := by
  rcases Nat.eq_zero_or_pos t with h0 | hpos
  · subst h0; exact incrementNat_zero
  have hlo : 2 ^ 1069 ≤ t * 2 ^ 1074 / 20 := by
    apply (Nat.le_div_iff_mul_le (by norm_num)).mpr
    have g1 : 2 ^ 1069 * 20 ≤ 2 ^ (1069 + 5) := pow_mul_twenty_le 1069
    have g2 : 2 ^ (1069 + 5) ≤ 2 ^ 1074 := Nat.pow_le_pow_right (by norm_num) (by norm_num)
    have g3 : 2 ^ 1074 ≤ t * 2 ^ 1074 := Nat.le_mul_of_pos_left _ hpos
    exact le_trans g1 (le_trans g2 g3)
  have hhi : t * 2 ^ 1074 / 20 < 2 ^ 1123 := by
    apply (Nat.div_lt_iff_lt_mul (by norm_num)).mpr
    have g1 : t * 2 ^ 1074 ≤ 2 ^ 53 * 2 ^ 1074 := Nat.mul_le_mul_right _ ht
    have g2 : 2 ^ 53 * 2 ^ 1074 = 2 ^ (53 + 1074) := two_pow_mul 53 1074
    have g3 : 2 ^ (53 + 1074) ≤ 2 ^ (1123 + 4) :=
      Nat.pow_le_pow_right (by norm_num) (by norm_num)
    have g4 : 2 ^ (1123 + 4) < 2 ^ 1123 * 20 := pow_lt_mul_twenty 1123
    exact lt_of_le_of_lt (le_trans g1 (le_trans (le_of_eq g2) g3)) g4
  have hk1 : 1069 ≤ log2 (t * 2 ^ 1074 / 20) := le_log2_of_le _ _ hlo
  have hk2 : log2 (t * 2 ^ 1074 / 20) < 1123 := by
    rcases log2_lt_of_lt _ _ hhi with h | h
    · exact h
    · rw [h] at hlo
      have : 0 < 2 ^ 1069 := Nat.two_pow_pos 1069
      omega
  unfold incrementNat divDouble ceilDyadic
  simp only
  generalize log2 (t * 2 ^ 1074 / 20) = k at hk1 hk2
  have hS : 2 ^ 1074 = 2 ^ (1074 - (k - 52)) * 2 ^ (k - 52) := by
    rw [← Nat.pow_add]
    congr 1
    omega
  have hp : 16 ≤ 2 ^ (1074 - (k - 52)) := by
    calc 16 = 2 ^ 4 := by norm_num
      _ ≤ 2 ^ (1074 - (k - 52)) := Nat.pow_le_pow_right (by norm_num) (by omega)
  have hc : 0 < 2 ^ (k - 52) := Nat.two_pow_pos _
  generalize 2 ^ (k - 52) = c at hS hc
  generalize 2 ^ (1074 - (k - 52)) = p at hS hp
  rw [hS]
  have e1 : t * (p * c) = (t * p) * c := by ring
  rw [e1, roundHalfEven_mul_right _ _ _ hc, ceil_cancel _ _ _ (by omega) hc]
  exact ceil_round_twentieth t p hp

theorem two_pow_53_lt : 2 ^ 53 < 2 ^ 1024 :=
  Nat.pow_lt_pow_right (by norm_num) (by norm_num)

theorem add_of_lt (c i : Nat) (h : roundNat (c + i) < 2 ^ 1024) :
    (JsNat.fin c).add (.fin i) = .fin (roundNat (c + i)) := by
  show toNumber (c + i) = _
  unfold toNumber
  rw [if_pos h]

theorem add_of_not_lt (c i : Nat) (h : ¬ roundNat (c + i) < 2 ^ 1024) :
    (JsNat.fin c).add (.fin i) = .inf := by
  show toNumber (c + i) = _
  unfold toNumber
  rw [if_neg h]

theorem ge_fin (a b : Nat) : (JsNat.fin a).ge (.fin b) = decide (b ≤ a) := rfl

theorem ge_inf (b : JsNat) : JsNat.inf.ge b = true := rfl

/-- One tick on a target of at most `2 ^ 53`: the timer is cleared exactly when
the exact sum reaches the target, and otherwise the sum is exact. -/
theorem tick_safe (t c i : Nat) (ht : t ≤ 2 ^ 53) :
    (t ≤ c + i → ((JsNat.fin c).add (.fin i)).ge (.fin t) = true) ∧
    (c + i < t → (JsNat.fin c).add (.fin i) = .fin (c + i) ∧
      ((JsNat.fin c).add (.fin i)).ge (.fin t) = false) := by
  have hlt := two_pow_53_lt
  constructor
  · intro h
    by_cases ho : roundNat (c + i) < 2 ^ 1024
    · rw [add_of_lt c i ho, ge_fin]
      by_cases hs : c + i < 2 ^ 53
      · rw [roundNat_of_lt _ hs]
        exact decide_eq_true h
      · have hr := roundNat_ge (c + i) (by omega)
        exact decide_eq_true (le_trans ht hr)
    · rw [add_of_not_lt c i ho, ge_inf]
  · intro h
    have hs : c + i < 2 ^ 53 := lt_of_lt_of_le h ht
    have hr := roundNat_of_lt _ hs
    have ho : roundNat (c + i) < 2 ^ 1024 := by rw [hr]; exact lt_trans hs hlt
    rw [add_of_lt c i ho, hr, ge_fin]
    exact ⟨rfl, decide_eq_false (by omega)⟩

/-- On a target of at most `2 ^ 53`, with enough fuel to reach the target the
timer is cleared; the displayed values end in the target, never exceed it, and
their number is the least positive number of increments that reaches the
target. -/
theorem tickLoop_safe (t i : Nat) (ht : t ≤ 2 ^ 53) :
    ∀ fuel c, 1 ≤ fuel → t ≤ c + fuel * i →
      ∃ vs : List Nat, tickLoop (.fin t) (.fin i) fuel (.fin c) = some (vs.map JsNat.fin) ∧
        1 ≤ vs.length ∧ vs.length ≤ fuel ∧
        vs.getLast? = some t ∧ (∀ v ∈ vs, v ≤ t) ∧
        t ≤ c + vs.length * i ∧
        (vs.length = 1 ∨ c + (vs.length - 1) * i < t) := by
  intro fuel
  induction fuel with
  | zero => intro c h; omega
  | succ k ih =>
    intro c _ hreach
    unfold tickLoop
    by_cases hge : t ≤ c + i
    · refine ⟨[t], ?_, ?_⟩
      · simp [(tick_safe t c i ht).1 hge]
      · simp; omega
    · have hlt : c + i < t := by omega
      obtain ⟨hadd, hnge⟩ := (tick_safe t c i ht).2 hlt
      have hk : 1 ≤ k := by
        rcases Nat.eq_zero_or_pos k with h0 | h0
        · subst h0; simp at hreach; omega
        · exact h0
      have hreach2 : t ≤ (c + i) + k * i := by
        have : (k + 1) * i = k * i + i := by ring
        omega
      obtain ⟨vs, hvs, h1, h2, h3, h4, h5, h6⟩ := ih (c + i) hk hreach2
      have hnge2 : (JsNat.fin (c + i)).ge (.fin t) = false := by rw [← hadd]; exact hnge
      refine ⟨(c + i) :: vs, ?_, ?_, ?_, ?_, ?_, ?_, ?_⟩
      · simp [hadd, hnge2, hvs]
      · simp
      · simp; omega
      · cases vs with
        | nil => simp at h1
        | cons a as => simpa [List.getLast?_cons_cons] using h3
      · intro v hv
        rcases List.mem_cons.mp hv with h | h
        · omega
        · exact h4 v h
      · simp only [List.length_cons]
        have : (vs.length + 1) * i = vs.length * i + i := by ring
        omega
      · right
        simp only [List.length_cons, Nat.add_sub_cancel]
        rcases h6 with h6 | h6
        · rw [h6]; omega
        · have : vs.length * i = (vs.length - 1) * i + i := by
            have h7 : vs.length = (vs.length - 1) + 1 := by omega
            nth_rewrite 1 [h7]
            ring
          omega

/-- One tick that does not clear the timer advances the running value by more
than a twenty-first of the target. -/
theorem tick_gain (t c : Nat) (ht : 1 ≤ t) (hc : c < t) :
    21 * c + t ≤ 21 * roundNat (c + incrementNat t) := by
  have h1 := roundNat_lower (c + incrementNat t)
  have h2 := incrementNat_lower t ht
  generalize roundNat (c + incrementNat t) = r at h1 ⊢
  generalize incrementNat t = i at h1 h2
  norm_num at h1 h2
  omega

/-- On any finite target of at least one, the timer is cleared once the fuel
covers the remaining twenty-firsts of the target. -/
theorem tickLoop_general (t : Nat) (ht : 1 ≤ t) :
    ∀ fuel c, 1 ≤ fuel → c < t → 21 * t ≤ 21 * c + fuel * t →
      ∃ vs : List Nat,
        tickLoop (.fin t) (.fin (incrementNat t)) fuel (.fin c) = some (vs.map JsNat.fin) ∧
        1 ≤ vs.length ∧ vs.length ≤ fuel ∧
        vs.getLast? = some t ∧ (∀ v ∈ vs, v ≤ t) := by
  intro fuel
  induction fuel with
  | zero => intro c h; omega
  | succ k ih =>
    intro c _ hc hpot
    unfold tickLoop
    by_cases ho : roundNat (c + incrementNat t) < 2 ^ 1024
    · have hadd := add_of_lt c (incrementNat t) ho
      by_cases hge : t ≤ roundNat (c + incrementNat t)
      · refine ⟨[t], ?_, ?_⟩
        · simp [hadd, ge_fin, hge]
        · simp
      · have hgain := tick_gain t c ht hc
        have hk : 1 ≤ k := by
          rcases Nat.eq_zero_or_pos k with h0 | h0
          · subst h0; simp at hpot; omega
          · exact h0
        have hpot2 : 21 * t ≤ 21 * roundNat (c + incrementNat t) + k * t := by
          have : (k + 1) * t = k * t + t := by ring
          omega
        obtain ⟨vs, hvs, h1, h2, h3, h4⟩ :=
          ih (roundNat (c + incrementNat t)) hk (by omega) hpot2
        refine ⟨roundNat (c + incrementNat t) :: vs, ?_, ?_, ?_, ?_, ?_⟩
        · simp [hadd, ge_fin, hge, hvs]
        · simp
        · simp; omega
        · cases vs with
          | nil => simp at h1
          | cons a as => simpa [List.getLast?_cons_cons] using h3
        · intro v hv
          rcases List.mem_cons.mp hv with h | h
          · omega
          · exact h4 v h
    · have hadd := add_of_not_lt c (incrementNat t) ho
      refine ⟨[t], ?_, ?_⟩
      · simp [hadd, ge_inf]
      · simp

theorem roundNat_zero : roundNat 0 = 0 := roundNat_of_lt 0 (Nat.two_pow_pos 53)

/-- The timer of any target, started at zero: it is cleared within twenty-one
ticks, ends on the target and shows nothing above it. -/
theorem timer_general (target : JsNat) :
    ∃ vals, tickLoop target (increment target) 21 (.fin 0) = some vals ∧
      1 ≤ vals.length ∧ vals.length ≤ 21 ∧
      vals.getLast? = some target ∧ ∀ v ∈ vals, target.ge v = true := by
  cases target with
  | inf =>
    refine ⟨[.inf], ?_, by simp, by simp, by simp, ?_⟩
    · rfl
    · intro v hv
      simp at hv
      subst hv
      rfl
  | fin t =>
    rcases Nat.eq_zero_or_pos t with h0 | hpos
    · subst h0
      have ho : roundNat (0 + incrementNat 0) < 2 ^ 1024 := by
        rw [incrementNat_zero, Nat.add_zero, roundNat_zero]
        exact Nat.two_pow_pos 1024
      have hadd := add_of_lt 0 (incrementNat 0) ho
      refine ⟨[.fin 0], ?_, by simp, by simp, by simp, ?_⟩
      · unfold tickLoop increment
        simp [hadd, ge_fin]
      · intro v hv
        simp at hv
        subst hv
        rfl
    · obtain ⟨vs, hvs, h1, h2, h3, h4⟩ :=
        tickLoop_general t hpos 21 0 (by norm_num) hpos (by omega)
      refine ⟨vs.map JsNat.fin, hvs, by simpa using h1, by simpa using h2, ?_, ?_⟩
      · rw [List.getLast?_map, h3]; rfl
      · intro v hv
        obtain ⟨w, hw, rfl⟩ := List.mem_map.mp hv
        rw [ge_fin]
        exact decide_eq_true (h4 w hw)

/-- The increment does not exceed the target. -/
theorem incrementNat_le (t : Nat) (ht : 1 ≤ t) : incrementNat t ≤ t := by
  have hb := (divDouble_bounds t 20 (by norm_num) (quotient20_has_bits t ht)).2
  have hc := ceilDyadic_lt (divDouble t 20)
  have hpos : 0 < 2 ^ 1074 := Nat.two_pow_pos 1074
  unfold incrementNat
  generalize ceilDyadic (divDouble t 20) = i at hc ⊢
  generalize divDouble t 20 = n at hb hc
  generalize 2 ^ 1074 = s at hb hc hpos
  by_contra hcon
  have hi : t + 1 ≤ i := by omega
  have h1 : (t + 1) * s ≤ i * s := Nat.mul_le_mul_right s hi
  have h2 : (t + 1) * s = t * s + s := by ring
  have h3 : s ≤ t * s := Nat.le_mul_of_pos_left s ht
  generalize t * s = x at hb h2 h3
  generalize i * s = y at hc h1
  norm_num at hb
  omega

theorem two_pow_52_le_scale : 2 ^ 52 ≤ 2 ^ 1074 :=
  Nat.pow_le_pow_right (by norm_num) (by norm_num)

/-- The divisor `targetValue / increment` before the overflow test: it lies
between `1 - 2 ^ -53` and `20 (1 + 2 ^ -53) / (1 - 2 ^ -53)`. -/
theorem divisor_bounds (t : Nat) (ht : 1 ≤ t) :
    (2 ^ 53 - 1) * 2 ^ 1074
        ≤ 2 ^ 53 * divDouble (t * 2 ^ 1074) (incrementNat t * 2 ^ 1074) ∧
    (2 ^ 53 - 1) * divDouble (t * 2 ^ 1074) (incrementNat t * 2 ^ 1074)
        ≤ 20 * (2 ^ 53 + 1) * 2 ^ 1074 := by
  have hi1 := incrementNat_pos t ht
  have hi2 := incrementNat_le t ht
  have hi3 := incrementNat_lower t ht
  have hpos : 0 < 2 ^ 1074 := Nat.two_pow_pos 1074
  have h52 := two_pow_52_le_scale
  have hbpos : 0 < incrementNat t * 2 ^ 1074 := Nat.mul_pos hi1 hpos
  have hq : 2 ^ 52 ≤ t * 2 ^ 1074 * 2 ^ 1074 / (incrementNat t * 2 ^ 1074) := by
    apply (Nat.le_div_iff_mul_le hbpos).mpr
    calc 2 ^ 52 * (incrementNat t * 2 ^ 1074)
        ≤ 2 ^ 1074 * (t * 2 ^ 1074) := Nat.mul_le_mul h52 (Nat.mul_le_mul_right _ hi2)
      _ = t * 2 ^ 1074 * 2 ^ 1074 := Nat.mul_comm _ _
  have hb := divDouble_bounds (t * 2 ^ 1074) (incrementNat t * 2 ^ 1074) hbpos hq
  generalize divDouble (t * 2 ^ 1074) (incrementNat t * 2 ^ 1074) = d at hb ⊢
  generalize incrementNat t = i at hi1 hi2 hi3 hb
  generalize 2 ^ 1074 = s at hpos hb ⊢
  obtain ⟨hlo, hhi⟩ := hb
  have hts : 0 < t * s := Nat.mul_pos ht hpos
  constructor
  · apply Nat.le_of_mul_le_mul_right _ hts
    calc (2 ^ 53 - 1) * s * (t * s) = (2 ^ 53 - 1) * (t * s * s) := by ring
      _ ≤ 2 ^ 53 * (d * (i * s)) := hlo
      _ ≤ 2 ^ 53 * (d * (t * s)) :=
          Nat.mul_le_mul_left _ (Nat.mul_le_mul_left _ (Nat.mul_le_mul_right _ hi2))
      _ = 2 ^ 53 * d * (t * s) := by ring
  · have his : 0 < 2 ^ 53 * (i * s) := Nat.mul_pos (by norm_num) (Nat.mul_pos hi1 hpos)
    apply Nat.le_of_mul_le_mul_right _ his
    calc (2 ^ 53 - 1) * d * (2 ^ 53 * (i * s))
        = (2 ^ 53 - 1) * (2 ^ 53 * (d * (i * s))) := by ring
      _ ≤ (2 ^ 53 - 1) * ((2 ^ 53 + 1) * (t * s * s)) := Nat.mul_le_mul_left _ hhi
      _ = ((2 ^ 53 - 1) * t) * ((2 ^ 53 + 1) * (s * s)) := by ring
      _ ≤ (2 ^ 53 * 20 * i) * ((2 ^ 53 + 1) * (s * s)) := Nat.mul_le_mul_right _ hi3
      _ = 20 * (2 ^ 53 + 1) * s * (2 ^ 53 * (i * s)) := by ring

theorem small_lt_overflow (k s : Nat) (hk : k < 1024) (hs : 0 < s) : k * s < 2 ^ 1024 * s := by
  have h1 : k < 2 ^ 10 := by norm_num; exact hk
  have h2 : 2 ^ 10 ≤ 2 ^ 1024 := Nat.pow_le_pow_right (by norm_num) (by norm_num)
  exact (Nat.mul_lt_mul_right hs).mpr (lt_of_lt_of_le h1 h2)

/-- The interval `1000 / d` before the overflow test, for a divisor within the
bounds of `divisor_bounds`: it is positive and below `1001`. -/
theorem interval_bounds (d : Nat)
    (hlo : (2 ^ 53 - 1) * 2 ^ 1074 ≤ 2 ^ 53 * d)
    (hhi : (2 ^ 53 - 1) * d ≤ 20 * (2 ^ 53 + 1) * 2 ^ 1074) :
    0 < d ∧ d < 2 ^ 1024 * 2 ^ 1074 ∧
    0 < divDouble (1000 * 2 ^ 1074) d ∧
    divDouble (1000 * 2 ^ 1074) d < 2 ^ 1024 * 2 ^ 1074 := by
  have hpos : 0 < 2 ^ 1074 := Nat.two_pow_pos 1074
  have hsc := scale_ge
  have hov21 := small_lt_overflow 21 (2 ^ 1074) (by norm_num) hpos
  have hov1001 := small_lt_overflow 1001 (2 ^ 1074) (by norm_num) hpos
  have hd21 : d ≤ 21 * 2 ^ 1074 := by
    generalize 2 ^ 1074 = s at hhi
    norm_num at hhi
    omega
  have hdpos : 0 < d := by
    generalize 2 ^ 1074 = s at hlo hpos
    norm_num at hlo
    omega
  have hq : 2 ^ 52 ≤ 1000 * 2 ^ 1074 * 2 ^ 1074 / d := by
    apply (Nat.le_div_iff_mul_le hdpos).mpr
    calc 2 ^ 52 * d ≤ 2 ^ 52 * (21 * 2 ^ 1074) := Nat.mul_le_mul_left _ hd21
      _ = (2 ^ 52 * 21) * 2 ^ 1074 := (Nat.mul_assoc _ _ _).symm
      _ ≤ (1000 * 2 ^ 1074) * 2 ^ 1074 := by
          apply Nat.mul_le_mul_right
          calc 2 ^ 52 * 21 ≤ 1000 * (2 ^ 52 * 20) := by norm_num
            _ ≤ 1000 * 2 ^ 1074 := Nat.mul_le_mul_left _ hsc
  have hb := divDouble_bounds (1000 * 2 ^ 1074) d hdpos hq
  generalize divDouble (1000 * 2 ^ 1074) d = x at hb ⊢
  obtain ⟨hblo, hbhi⟩ := hb
  refine ⟨hdpos, lt_of_le_of_lt hd21 hov21, ?_, ?_⟩
  · rcases Nat.eq_zero_or_pos x with h0 | h0
    · subst h0
      have h1 : 0 < (2 ^ 53 - 1) * (1000 * 2 ^ 1074 * 2 ^ 1074) :=
        Nat.mul_pos (by norm_num) (Nat.mul_pos (Nat.mul_pos (by norm_num) hpos) hpos)
      simp only [Nat.zero_mul, Nat.mul_zero] at hblo
      omega
    · exact h0
  · have hx : x ≤ 1001 * 2 ^ 1074 := by
      have h1 : (2 ^ 53 - 1) * x * 2 ^ 1074 ≤ (1000 * (2 ^ 53 + 1) * 2 ^ 1074) * 2 ^ 1074 := by
        calc (2 ^ 53 - 1) * x * 2 ^ 1074 = x * ((2 ^ 53 - 1) * 2 ^ 1074) := by ring
          _ ≤ x * (2 ^ 53 * d) := Nat.mul_le_mul_left _ hlo
          _ = 2 ^ 53 * (x * d) := by ring
          _ ≤ (2 ^ 53 + 1) * (1000 * 2 ^ 1074 * 2 ^ 1074) := hbhi
          _ = (1000 * (2 ^ 53 + 1) * 2 ^ 1074) * 2 ^ 1074 := by ring
      have h2 := Nat.le_of_mul_le_mul_right h1 hpos
      generalize 2 ^ 1074 = s at h2
      norm_num at h2
      omega
    exact lt_of_le_of_lt hx hov1001

theorem increment_eq_zero_iff (target : JsNat) : increment target = .fin 0 ↔ target = .fin 0 := by
  cases target with
  | inf => simp [increment]
  | fin t =>
    simp only [increment, JsNat.fin.injEq]
    constructor
    · intro h
      rcases Nat.eq_zero_or_pos t with h0 | h0
      · exact h0
      · have := incrementNat_pos t h0
        omega
    · intro h
      subst h
      exact incrementNat_zero

/-- The digits 9007199254740993, which are `2 ^ 53 + 1`, are read as the number
9007199254740992. -/
theorem parseInt_rounds :
    parseInt "9007199254740993".toList = .fin 9007199254740992 := by
  decide!

/-- Claim C1: for every element whose text has a match of `<digits>%`, the
animation is finite (the timer is cleared within the fuel), it displays at least
one value, its last displayed value is the parsed target exactly, and no
displayed value exceeds the target. -/
theorem animateMatchScore_reaches_target (numberText : JsNat → String) (element : ScoreElement)
    (before ds after : List Char)
    (hmatch : scoreMatch element.textContent.toList = some (before, ds, after)) :
    ∃ vals, animateMatchScore numberText element 21
        = some (vals.map (display numberText element before after)) ∧
      vals ≠ [] ∧ vals.getLast? = some (parseInt ds) ∧
      ∀ v ∈ vals, (parseInt ds).ge v = true := by
  obtain ⟨vs, hvs, h1, _, h3, h4⟩ := timer_general (parseInt ds)
  refine ⟨vs, ?_, ?_, h3, h4⟩
  · unfold animateMatchScore
    rw [hmatch]
    simp only [hvs, Option.map_some']
  · intro h
    simp [h] at h1

/-- The texts "0%" and "57%" are matched with targets 0 and 57 and animate as
claim C1 says; "57%" on a progress bar takes nineteen ticks. -/
theorem animateMatchScore_reaches_target_witness :
    (parseInt ['0'] = .fin 0 ∧
      ∃ vals,
        animateMatchScore (smallNumberText (fun _ => "")) ⟨"0%", [], ""⟩ 21
          = some (vals.map (display (smallNumberText (fun _ => "")) ⟨"0%", [], ""⟩ [] [])) ∧
        vals ≠ [] ∧ vals.getLast? = some (parseInt ['0']) ∧
        ∀ v ∈ vals, (parseInt ['0']).ge v = true) ∧
    (parseInt ['5', '7'] = .fin 57 ∧
      (animateMatchScore (smallNumberText (fun _ => ""))
          ⟨"57%", ["progress-bar"], "57%"⟩ 21).map List.length = some 19 ∧
      (animateMatchScore (smallNumberText (fun _ => ""))
          ⟨"57%", ["progress-bar"], "57%"⟩ 21).map (fun frames => frames.take 2)
        = some [⟨"3%", ["progress-bar"], "3%"⟩, ⟨"6%", ["progress-bar"], "6%"⟩] ∧
      ∃ vals,
        animateMatchScore (smallNumberText (fun _ => "")) ⟨"57%", ["progress-bar"], "57%"⟩ 21
          = some (vals.map
              (display (smallNumberText (fun _ => "")) ⟨"57%", ["progress-bar"], "57%"⟩ [] [])) ∧
        vals ≠ [] ∧ vals.getLast? = some (parseInt ['5', '7']) ∧
        ∀ v ∈ vals, (parseInt ['5', '7']).ge v = true) :=
  ⟨⟨by decide!,
    animateMatchScore_reaches_target (smallNumberText (fun _ => "")) ⟨"0%", [], ""⟩
      [] ['0'] [] (by decide)⟩,
   ⟨by decide!, by decide!, by decide!,
    animateMatchScore_reaches_target (smallNumberText (fun _ => ""))
      ⟨"57%", ["progress-bar"], "57%"⟩ [] ['5', '7'] [] (by decide)⟩⟩

/-- Claim C2, as stated, fails at target 18014398509482016, which is
`2 ^ 54 + 32`: the increment is 900719925474101, twenty additions in binary64
reach 18014398509482012 only, and the timer is cleared by the twenty-first
tick. -/
theorem twenty_ticks_not_enough :
    incrementNat 18014398509482016 = 900719925474101 ∧
    tickLoop (.fin 18014398509482016) (increment (.fin 18014398509482016)) 20 (.fin 0) = none ∧
    (tickLoop (.fin 18014398509482016) (increment (.fin 18014398509482016)) 21 (.fin 0)).map
        List.length = some 21 ∧
    (tickLoop (.fin 18014398509482016) (increment (.fin 18014398509482016)) 21 (.fin 0)).map
        (fun vals => vals.drop 19)
      = some [.fin 18014398509482012, .fin 18014398509482016] := by
  decide!

/-- The safe range: the exact increment, and the ticks of a target of at most
`2 ^ 53`. -/
theorem safe_target_ticks (t : Nat) (ht : t ≤ 2 ^ 53) :
    incrementNat t = (t + 19) / 20 ∧
    ∃ vals, tickLoop (.fin t) (increment (.fin t)) 20 (.fin 0) = some vals ∧
      1 ≤ vals.length ∧ vals.length ≤ 20 ∧
      t ≤ vals.length * incrementNat t ∧
      (vals.length = 1 ∨ (vals.length - 1) * incrementNat t < t) := by
  have hinc := incrementNat_exact t ht
  refine ⟨hinc, ?_⟩
  have hreach : t ≤ 0 + 20 * incrementNat t := by rw [hinc]; omega
  obtain ⟨vs, hvs, h1, h2, _, _, h5, h6⟩ :=
    tickLoop_safe t (incrementNat t) ht 20 0 (by norm_num) hreach
  refine ⟨vs.map JsNat.fin, hvs, ?_, ?_, ?_, ?_⟩
  · simpa using h1
  · simpa using h2
  · simpa using h5
  · simpa using h6

/-- Claim C2, amended: for every target the timer is cleared after at least one
and at most twenty-one ticks; for a target of at most `2 ^ 53` the increment is
the exact ceiling of a twentieth of the target, the timer is cleared after at
most twenty ticks, and the number of ticks is the least positive number of
increments whose sum reaches the target. -/
theorem animateMatchScore_tick_bounds (target : JsNat) (t : Nat) :
    (∃ vals, tickLoop target (increment target) 21 (.fin 0) = some vals ∧
      1 ≤ vals.length ∧ vals.length ≤ 21) ∧
    (t ≤ 2 ^ 53 →
      incrementNat t = (t + 19) / 20 ∧
      ∃ vals, tickLoop (.fin t) (increment (.fin t)) 20 (.fin 0) = some vals ∧
        1 ≤ vals.length ∧ vals.length ≤ 20 ∧
        t ≤ vals.length * incrementNat t ∧
        (vals.length = 1 ∨ (vals.length - 1) * incrementNat t < t)) := by
  constructor
  · obtain ⟨vs, hvs, h1, h2, _, _⟩ := timer_general target
    exact ⟨vs, hvs, h1, h2⟩
  · exact safe_target_ticks t

/-- Target 57 is cleared within twenty ticks, its increment being 3. -/
theorem animateMatchScore_tick_bounds_witness :
    57 ≤ 2 ^ 53 ∧
    incrementNat 57 = (57 + 19) / 20 ∧
    ∃ vals, tickLoop (.fin 57) (increment (.fin 57)) 20 (.fin 0) = some vals ∧
      1 ≤ vals.length ∧ vals.length ≤ 20 ∧
      57 ≤ vals.length * incrementNat 57 ∧
      (vals.length = 1 ∨ (vals.length - 1) * incrementNat 57 < 57) :=
  ⟨by norm_num, (animateMatchScore_tick_bounds (.fin 57) 57).2 (by norm_num)⟩

/-- Claim C9, as stated, fails on a target that parses to `Infinity`: a run of
310 nines is read as `Infinity`, which is at least one; the increment is
`Infinity`, the divisor `Infinity / Infinity` is `NaN`, and so is the tick
interval. -/
theorem infinite_target_has_no_interval :
    parseInt (List.replicate 310 '9') = .inf ∧
    JsNat.inf.ge (.fin 1) = true ∧
    increment .inf = .inf ∧
    jsDiv JsNat.inf.toNum (increment .inf).toNum = .nan ∧
    stepTime .inf = .nan := by
  refine ⟨by decide!, rfl, rfl, rfl, rfl⟩

/-- Claim C9, amended: the increment is zero exactly for target zero, where the
divisor is zero divided by zero, `NaN`, and so is the tick interval; for every
finite target of at least one the increment is a finite number of at least one,
the divisor `target / increment` is a finite positive number and the tick
interval `1000 / (target / increment)` is a finite positive number. -/
theorem stepTime_defined (target : JsNat) (t : Nat) :
    (increment target = .fin 0 ↔ target = .fin 0) ∧
    jsDiv (JsNat.fin 0).toNum (increment (.fin 0)).toNum = .nan ∧
    stepTime (.fin 0) = .nan ∧
    (1 ≤ t →
      increment (.fin t) = .fin (incrementNat t) ∧ 1 ≤ incrementNat t ∧
      ∃ d, jsDiv (JsNat.fin t).toNum (increment (.fin t)).toNum = .fin d ∧ 0 < d ∧
        ∃ s, stepTime (.fin t) = .fin s ∧ 0 < s) := by
  have hz : jsDiv (JsNat.fin 0).toNum (increment (.fin 0)).toNum = .nan := by
    simp [increment, incrementNat_zero, JsNat.toNum, jsDiv]
  refine ⟨increment_eq_zero_iff target, hz, ?_, ?_⟩
  · unfold stepTime
    rw [hz]
    rfl
  · intro ht
    have hi := incrementNat_pos t ht
    obtain ⟨hlo, hhi⟩ := divisor_bounds t ht
    obtain ⟨hdpos, hdlt, hspos, hslt⟩ := interval_bounds _ hlo hhi
    have hb : incrementNat t * 2 ^ 1074 ≠ 0 :=
      Nat.ne_of_gt (Nat.mul_pos hi (Nat.two_pow_pos 1074))
    have hdiv : jsDiv (JsNat.fin t).toNum (increment (.fin t)).toNum
        = .fin (divDouble (t * 2 ^ 1074) (incrementNat t * 2 ^ 1074)) := by
      simp only [increment, JsNat.toNum, jsDiv, hb, if_false, hdlt, if_true]
    refine ⟨rfl, hi, _, hdiv, hdpos, divDouble (1000 * 2 ^ 1074) _, ?_, hspos⟩
    unfold stepTime
    rw [hdiv]
    simp only [jsDiv, Nat.ne_of_gt hdpos, if_false, hslt, if_true]

/-- Target 57 has increment 3, a positive divisor and a positive interval. -/
theorem stepTime_defined_witness :
    1 ≤ 57 ∧
    increment (.fin 57) = .fin (incrementNat 57) ∧ 1 ≤ incrementNat 57 ∧
    incrementNat 57 = 3 ∧
    ∃ d, jsDiv (JsNat.fin 57).toNum (increment (.fin 57)).toNum = .fin d ∧ 0 < d ∧
      ∃ s, stepTime (.fin 57) = .fin s ∧ 0 < s :=
  ⟨by norm_num, ((stepTime_defined (.fin 57) 57).2.2.2 (by norm_num)).1,
   ((stepTime_defined (.fin 57) 57).2.2.2 (by norm_num)).2.1, by decide!,
   ((stepTime_defined (.fin 57) 57).2.2.2 (by norm_num)).2.2⟩

/-- Claim C10, as stated, fails at target 21: the increment is 2, the timer is
cleared by the eleventh tick, the tick interval is 2000/21, and eleven intervals
last 22000/21, which is not 1000. -/
theorem animation_duration_not_fixed :
    incrementNat 21 = 2 ∧
    tickLoop (.fin 21) (increment (.fin 21)) 20 (.fin 0)
      = some ([2, 4, 6, 8, 10, 12, 14, 16, 18, 20, 21].map JsNat.fin) ∧
    (([2, 4, 6, 8, 10, 12, 14, 16, 18, 20, 21] : List Nat).length : ℚ)
      * (1000 / ((21 : ℚ) / 2)) ≠ 1000 := by
  refine ⟨by decide!, by decide!, ?_⟩
  norm_num

/-- The arithmetic of the duration: `n` ticks, where `n` is the least positive
number of increments reaching the target. -/
theorem duration_arith (t inc n : Nat) (ht : 1 ≤ t) (hi : 1 ≤ inc) (h1 : 1 ≤ n)
    (h5 : t ≤ n * inc) (h6 : n = 1 ∨ (n - 1) * inc < t) :
    1000 ≤ (n : ℚ) * (1000 / ((t : ℚ) / (inc : ℚ))) ∧
    (n : ℚ) * (1000 / ((t : ℚ) / (inc : ℚ))) < 1000 + 1000 / ((t : ℚ) / (inc : ℚ)) ∧
    ((n : ℚ) * (1000 / ((t : ℚ) / (inc : ℚ))) = 1000 ↔ inc ∣ t) := by
  have hiq : (0 : ℚ) < (inc : ℚ) := by exact_mod_cast hi
  have htq : (0 : ℚ) < (t : ℚ) := by exact_mod_cast ht
  have hlow : (n - 1) * inc < t := by
    rcases h6 with h6 | h6
    · rw [h6]; simp; omega
    · exact h6
  have hsplit : n * inc = (n - 1) * inc + inc := by
    have h7 : n = (n - 1) + 1 := by omega
    nth_rewrite 1 [h7]
    ring
  have hq : (1000 : ℚ) / ((t : ℚ) / (inc : ℚ)) = 1000 * (inc : ℚ) / (t : ℚ) := by
    field_simp
  have hprod : (n : ℚ) * (1000 * (inc : ℚ) / (t : ℚ))
      = 1000 * ((n * inc : ℕ) : ℚ) / (t : ℚ) := by
    push_cast; ring
  refine ⟨?_, ?_, ?_⟩
  · rw [hq, hprod, le_div_iff₀ htq]
    have : (t : ℚ) ≤ ((n * inc : ℕ) : ℚ) := Nat.cast_le.mpr h5
    linarith
  · rw [hq, hprod, hsplit]
    have hl : (((n - 1) * inc : ℕ) : ℚ) < (t : ℚ) := Nat.cast_lt.mpr hlow
    have e : 1000 * (((n - 1) * inc + inc : ℕ) : ℚ) / (t : ℚ)
        = 1000 * (((n - 1) * inc : ℕ) : ℚ) / (t : ℚ) + 1000 * (inc : ℚ) / (t : ℚ) := by
      push_cast; ring
    rw [e]
    have : 1000 * (((n - 1) * inc : ℕ) : ℚ) / (t : ℚ) < 1000 := by
      rw [div_lt_iff₀ htq]; linarith
    linarith
  · rw [hq, hprod, div_eq_iff (ne_of_gt htq)]
    constructor
    · intro h
      have h2 : ((n * inc : ℕ) : ℚ) = (t : ℚ) := by linarith
      have h3 : n * inc = t := Nat.cast_injective h2
      exact ⟨n, by rw [mul_comm]; exact h3.symm⟩
    · rintro ⟨m, hm⟩
      have hm1 : (n - 1) * inc < m * inc := by
        have : inc * m = m * inc := by ring
        omega
      have hm2 : m * inc ≤ n * inc := by
        have : inc * m = m * inc := by ring
        omega
      have hlt : n - 1 < m := lt_of_mul_lt_mul_right hm1 (Nat.zero_le _)
      have hle : m ≤ n := le_of_mul_le_mul_right hm2 (by omega)
      have hmeq : m = n := by omega
      have h3 : n * inc = t := by
        rw [hmeq] at hm
        rw [mul_comm]
        exact hm.symm
      rw [h3]

/-- Claim C10, amended: for every target from one to `2 ^ 53`, with the tick
interval `1000 / (target / increment)` taken in exact rational arithmetic, the
number of ticks times the tick interval is at least 1000 and less than 1000
plus one tick interval, and it is exactly 1000 if and only if the increment
divides the target. -/
theorem animation_duration_bounds (t : Nat) (ht : 1 ≤ t) (hsafe : t ≤ 2 ^ 53) :
    ∃ vals, tickLoop (.fin t) (increment (.fin t)) 20 (.fin 0) = some vals ∧
      1000 ≤ (vals.length : ℚ) * (1000 / ((t : ℚ) / (incrementNat t : ℚ))) ∧
      (vals.length : ℚ) * (1000 / ((t : ℚ) / (incrementNat t : ℚ)))
        < 1000 + 1000 / ((t : ℚ) / (incrementNat t : ℚ)) ∧
      ((vals.length : ℚ) * (1000 / ((t : ℚ) / (incrementNat t : ℚ))) = 1000
        ↔ incrementNat t ∣ t) := by
  obtain ⟨_, vals, hvals, h1, _, h5, h6⟩ := safe_target_ticks t hsafe
  exact ⟨vals, hvals,
    duration_arith t (incrementNat t) vals.length ht (incrementNat_pos t ht) h1 h5 h6⟩

/-- Target 57 is animated in nineteen ticks of 1000/19 each, and target 21
takes longer than 1000. -/
theorem animation_duration_bounds_witness :
    1 ≤ 21 ∧ 21 ≤ 2 ^ 53 ∧
    ∃ vals, tickLoop (.fin 21) (increment (.fin 21)) 20 (.fin 0) = some vals ∧
      1000 ≤ (vals.length : ℚ) * (1000 / ((21 : ℕ) / (incrementNat 21 : ℚ))) ∧
      (vals.length : ℚ) * (1000 / ((21 : ℕ) / (incrementNat 21 : ℚ)))
        < 1000 + 1000 / ((21 : ℕ) / (incrementNat 21 : ℚ)) ∧
      ((vals.length : ℚ) * (1000 / ((21 : ℕ) / (incrementNat 21 : ℚ))) = 1000
        ↔ incrementNat 21 ∣ 21) :=
  ⟨by norm_num, by norm_num, animation_duration_bounds 21 (by norm_num) (by norm_num)⟩

/-! ### The validation state machine -/

theorem mem_classAdd (cl : List String) (t c : String) :
    c ∈ classAdd cl t ↔ c ∈ cl ∨ c = t := by
  unfold classAdd
  by_cases h : t ∈ cl
  · simp only [h, if_true]
    constructor
    · exact Or.inl
    · rintro (h1 | h1)
      · exact h1
      · rw [h1]; exact h
  · simp [h]

theorem mem_classRemove (cl : List String) (t c : String) :
    c ∈ classRemove cl t ↔ c ∈ cl ∧ c ≠ t := by
  simp [classRemove]

theorem mem_validationBlur (ok : Bool) (cl : List String) (c : String) :
    c ∈ validationBlur ok cl ↔
      if ok then (c ∈ cl ∧ c ≠ "is-invalid") ∨ c = "is-valid"
      else (c ∈ cl ∧ c ≠ "is-valid") ∨ c = "is-invalid" := by
  cases ok <;> simp [validationBlur, mem_classAdd, mem_classRemove]

theorem fieldStep_exclusive (cl : List String) (e : FieldEvent)
    (h : ¬ ("is-valid" ∈ cl ∧ "is-invalid" ∈ cl)) :
    ¬ ("is-valid" ∈ fieldStep cl e ∧ "is-invalid" ∈ fieldStep cl e) := by
  cases e with
  | blur ok =>
    cases ok <;> simp [fieldStep, mem_validationBlur]
  | input ok =>
    by_cases hi : "is-invalid" ∈ cl
    · cases ok
      · simpa [fieldStep, validationInput, hi] using h
      · simp [fieldStep, validationInput, hi, mem_classAdd, mem_classRemove]
    · simp [fieldStep, validationInput, hi]

theorem fieldRun_exclusive (events : List FieldEvent) :
    ∀ cl : List String, ¬ ("is-valid" ∈ cl ∧ "is-invalid" ∈ cl) →
      ¬ ("is-valid" ∈ fieldRun cl events ∧ "is-invalid" ∈ fieldRun cl events) := by
  induction events with
  | nil => intro cl h; simpa [fieldRun] using h
  | cons e es ih =>
    intro cl h
    have := ih (fieldStep cl e) (fieldStep_exclusive cl e h)
    simpa [fieldRun] using this

/-- Claim C6: a blur leaves the field marked `is-valid` exactly when
`checkValidity` holds and `is-invalid` exactly when it does not; an input event
changes the class list only when the field is `is-invalid` and `checkValidity`
holds, and then the field is `is-valid` and not `is-invalid`; an input event
that still fails leaves the class list as it is; no input event removes
`is-valid` or adds `is-invalid`; and from a class list that does not carry both
classes no sequence of blur and input events reaches one that does. -/
theorem validation_state_machine (classList : List String) (ok : Bool)
    (events : List FieldEvent) :
    (("is-valid" ∈ validationBlur ok classList ↔ ok = true) ∧
      ("is-invalid" ∈ validationBlur ok classList ↔ ok = false)) ∧
    (validationInput ok classList ≠ classList → "is-invalid" ∈ classList ∧ ok = true) ∧
    ("is-invalid" ∈ classList → ok = true →
      "is-valid" ∈ validationInput ok classList ∧
      "is-invalid" ∉ validationInput ok classList) ∧
    ("is-invalid" ∈ classList → ok = false → validationInput ok classList = classList) ∧
    ("is-valid" ∈ classList → "is-valid" ∈ validationInput ok classList) ∧
    ("is-invalid" ∉ classList → "is-invalid" ∉ validationInput ok classList) ∧
    (¬ ("is-valid" ∈ classList ∧ "is-invalid" ∈ classList) →
      ¬ ("is-valid" ∈ fieldRun classList events ∧
         "is-invalid" ∈ fieldRun classList events)) := by
  refine ⟨⟨?_, ?_⟩, ?_, ?_, ?_, ?_, ?_, ?_⟩
  · cases ok <;> simp [mem_validationBlur]
  · cases ok <;> simp [mem_validationBlur]
  · intro hne
    by_cases hi : "is-invalid" ∈ classList
    · cases ok
      · simp [validationInput, hi] at hne
      · exact ⟨hi, rfl⟩
    · simp [validationInput, hi] at hne
  · intro hi hok
    subst hok
    simp [validationInput, hi, mem_classAdd, mem_classRemove]
  · intro hi hok
    subst hok
    simp [validationInput, hi]
  · intro hv
    by_cases hi : "is-invalid" ∈ classList
    · cases ok
      · simpa [validationInput, hi] using hv
      · simp [validationInput, hi, mem_classAdd, mem_classRemove]
    · simpa [validationInput, hi] using hv
  · intro hi
    simp [validationInput, hi]
  · exact fieldRun_exclusive events classList

/-- A field marked `is-invalid`: an input that validates marks it `is-valid`
only, an input that fails leaves it alone, and a run of events never leaves both
classes on it. -/
theorem validation_state_machine_witness :
    ("is-valid" ∈ validationInput true ["form-control", "is-invalid"] ∧
      "is-invalid" ∉ validationInput true ["form-control", "is-invalid"]) ∧
    validationInput false ["form-control", "is-invalid"] = ["form-control", "is-invalid"] ∧
    ¬ ("is-valid" ∈ fieldRun ["form-control", "is-invalid"]
          [.input false, .input true, .blur false, .blur true, .input false] ∧
       "is-invalid" ∈ fieldRun ["form-control", "is-invalid"]
          [.input false, .input true, .blur false, .blur true, .input false]) :=
  ⟨(validation_state_machine ["form-control", "is-invalid"] true []).2.2.1 (by decide) rfl,
   (validation_state_machine ["form-control", "is-invalid"] false []).2.2.2.1 (by decide) rfl,
   (validation_state_machine ["form-control", "is-invalid"] true
      [.input false, .input true, .blur false, .blur true, .input false]).2.2.2.2.2.2
      (by decide)⟩

/-! ### The badge updater -/

theorem length_modifyAt {α : Type} (f : α → α) :
    ∀ (i : Nat) (l : List α), (modifyAt f i l).length = l.length
  | _, [] => by simp [modifyAt]
  | 0, _ :: _ => by simp [modifyAt]
  | i + 1, x :: xs => by simp [modifyAt, length_modifyAt f i xs]

theorem getElem?_modifyAt {α : Type} (f : α → α) :
    ∀ (i : Nat) (l : List α) (j : Nat),
      (modifyAt f i l)[j]? = if j = i then (l[j]?).map f else l[j]?
  | _, [], j => by simp [modifyAt]
  | 0, x :: xs, j => by
    cases j <;> simp [modifyAt]
  | i + 1, x :: xs, j => by
    cases j with
    | zero => simp [modifyAt]
    | succ k => simp [modifyAt, getElem?_modifyAt f i xs k]

theorem setBadge_idem (numberText : JsNumber → String) (count : JsNumber) (b : BadgeElement) :
    setBadge numberText count (setBadge numberText count b) = setBadge numberText count b := rfl

theorem foldl_modifyAt_getElem? (numberText : JsNumber → String) (count : JsNumber)
    (is : List Nat) :
    ∀ (doc : List BadgeElement) (j : Nat),
      (is.foldl (fun d i => modifyAt (setBadge numberText count) i d) doc)[j]? =
        if j ∈ is then (doc[j]?).map (setBadge numberText count) else doc[j]? := by
  induction is with
  | nil => intro doc j; simp
  | cons i rest ih =>
    intro doc j
    rw [List.foldl_cons, ih, getElem?_modifyAt]
    by_cases hji : j = i
    · subst hji
      by_cases hr : j ∈ rest
      · cases h : doc[j]? <;> simp [hr, h, setBadge_idem]
      · simp [hr]
    · simp [hji]

theorem mem_querySelectorAll (sel : String → BadgeElement → Bool) (selector : String)
    (doc : List BadgeElement) (i : Nat) (e : BadgeElement) (h : doc[i]? = some e) :
    i ∈ querySelectorAll sel selector doc ↔ sel selector e = true := by
  have hi : i < doc.length := by
    rcases Nat.lt_or_ge i doc.length with hlt | hge
    · exact hlt
    · rw [List.getElem?_eq_none hge] at h; cases h
  simp [querySelectorAll, h, hi]

theorem leZero_not_gtZero (count : JsNumber) (h : count.leZero = true) :
    count.gtZero = false := by
  obtain ⟨neg, mag⟩ := count
  cases mag with
  | nan => simp [JsNumber.leZero] at h
  | inf =>
    simp only [JsNumber.leZero] at h
    simp [JsNumber.gtZero, h]
  | fin n =>
    simp only [JsNumber.leZero, Bool.or_eq_true, beq_iff_eq] at h
    rcases h with h | h
    · simp [JsNumber.gtZero, h]
    · simp [JsNumber.gtZero, h]

/-- Claim C7: for every selector and every numeric count, `updateBadgeCount`
gives every matching element the count as text and the display `none` when the
count is at most zero and `inline` when it is positive, and leaves every other
element as it was. -/
theorem updateBadgeCount_spec (numberText : JsNumber → String)
    (sel : String → BadgeElement → Bool)
    (document : List BadgeElement) (selector : String) (count : JsNumber) (i : Nat)
    (e : BadgeElement) (h : document[i]? = some e) :
    (sel selector e = true →
      ∃ e2, (updateBadgeCount numberText sel document selector count)[i]? = some e2 ∧
        e2.textContent = numberText count ∧
        (count.leZero = true → e2.display = "none") ∧
        (count.gtZero = true → e2.display = "inline") ∧
        e2.classList = e.classList) ∧
    (sel selector e = false →
      (updateBadgeCount numberText sel document selector count)[i]? = some e) := by
  unfold updateBadgeCount
  rw [foldl_modifyAt_getElem?]
  constructor
  · intro hs
    rw [if_pos ((mem_querySelectorAll sel selector document i e h).mpr hs), h]
    refine ⟨setBadge numberText count e, rfl, rfl, ?_, ?_, rfl⟩
    · intro hc
      simp [setBadge, leZero_not_gtZero count hc]
    · intro hc
      simp [setBadge, hc]
  · intro hs
    have : i ∉ querySelectorAll sel selector document := by
      rw [mem_querySelectorAll sel selector document i e h, hs]; simp
    rw [if_neg this, h]

/-- A document with one badge and one other element: count 0 hides the badge
with text "0", count 3 shows it with text "3", and the other element is left as
it was. -/
theorem updateBadgeCount_spec_witness :
    updateBadgeCount (integerText (fun _ => ""))
        (fun selector e => selector == ".badge" && e.classList.contains "badge")
        [⟨["badge"], "7", "inline"⟩, ⟨["nav"], "Home", "block"⟩] ".badge" (.ofInt 0)
      = [⟨["badge"], "0", "none"⟩, ⟨["nav"], "Home", "block"⟩] ∧
    updateBadgeCount (integerText (fun _ => ""))
        (fun selector e => selector == ".badge" && e.classList.contains "badge")
        [⟨["badge"], "7", "none"⟩, ⟨["nav"], "Home", "block"⟩] ".badge" (.ofInt 3)
      = [⟨["badge"], "3", "inline"⟩, ⟨["nav"], "Home", "block"⟩] ∧
    (∃ e2, (updateBadgeCount (integerText (fun _ => ""))
          (fun selector e => selector == ".badge" && e.classList.contains "badge")
          [⟨["badge"], "7", "none"⟩, ⟨["nav"], "Home", "block"⟩] ".badge" (.ofInt 3))[0]?
          = some e2 ∧
        e2.textContent = integerText (fun _ => "") (.ofInt 3) ∧
        ((JsNumber.ofInt 3).leZero = true → e2.display = "none") ∧
        ((JsNumber.ofInt 3).gtZero = true → e2.display = "inline") ∧
        e2.classList = ["badge"]) :=
  ⟨by decide!, by decide!,
   (updateBadgeCount_spec (integerText (fun _ => ""))
      (fun selector e => selector == ".badge" && e.classList.contains "badge")
      [⟨["badge"], "7", "none"⟩, ⟨["nav"], "Home", "block"⟩] ".badge" (.ofInt 3) 0
      ⟨["badge"], "7", "none"⟩ (by decide)).1 (by decide)⟩

/-! ### Lemmas on the autosave record -/

theorem ownProperty_setProp (o : List (String × String)) (k v name : String) :
    ownProperty name (setProp o k v)
      = if k = "__proto__" then ownProperty name o
        else if k = name then some v else ownProperty name o := by
  by_cases hk : k = "__proto__"
  · unfold setProp
    simp [hk]
  · simp only [hk, if_false]
    induction o with
    | nil =>
      unfold setProp
      simp [hk, ownProperty]
    | cons kv rest ih =>
      obtain ⟨k', v'⟩ := kv
      unfold setProp
      simp only [hk, if_false]
      by_cases h : k' = k
      · subst h
        by_cases h2 : k' = name <;> simp [ownProperty, h2]
      · by_cases h2 : k' = name
        · subst h2
          have h3 : ¬ k = k' := fun hkk => h hkk.symm
          simp [ownProperty, h, h3]
        · simp [ownProperty, h, h2, ih]

theorem ownProperty_foldl (name : String) (inputs : List Input) :
    ∀ formData : List (String × String),
      ownProperty name (inputs.foldl formDataStep formData) =
        match lastPersisted name inputs with
        | some v => some v
        | none => ownProperty name formData := by
  induction inputs with
  | nil => intro fd; rfl
  | cons x xs ih =>
    intro fd
    rw [List.foldl_cons, ih]
    cases hl : lastPersisted name xs with
    | some v => simp [lastPersisted, hl]
    | none =>
      by_cases hp : persisted x = true
      · by_cases hproto : x.name = "__proto__"
        · simp [lastPersisted, hl, formDataStep, hp, hproto, ownProperty_setProp]
        · by_cases hn : x.name = name
          · subst hn
            simp [lastPersisted, hl, formDataStep, hp, hproto, ownProperty_setProp]
          · simp [lastPersisted, hl, formDataStep, hp, hn, hproto, ownProperty_setProp]
      · simp [lastPersisted, hl, formDataStep, hp]

theorem lastPersisted_mem (name : String) (inputs : List Input) (v : String)
    (h : lastPersisted name inputs = some v) :
    ∃ x ∈ inputs, persisted x = true ∧ x.name = name ∧ x.value = v := by
  induction inputs with
  | nil => simp [lastPersisted] at h
  | cons x xs ih =>
    cases hl : lastPersisted name xs with
    | some w =>
      simp only [lastPersisted, hl] at h
      obtain ⟨y, hy, hrest⟩ := ih (by rw [hl, h])
      exact ⟨y, List.mem_cons_of_mem _ hy, hrest⟩
    | none =>
      simp only [lastPersisted, hl] at h
      by_cases hc : persisted x = true ∧ x.name ≠ "__proto__" ∧ x.name = name
      · rw [if_pos hc] at h
        exact ⟨x, List.mem_cons_self _ _, hc.1, hc.2.2, Option.some.inj h⟩
      · rw [if_neg hc] at h; cases h

theorem lastPersisted_of_nodup (inputs : List Input) (e : Input) (he : e ∈ inputs)
    (hp : persisted e = true) (hproto : e.name ≠ "__proto__")
    (hnodup : ((inputs.filter (fun x => persisted x)).map Input.name).Nodup) :
    lastPersisted e.name inputs = some e.value := by
  induction inputs with
  | nil => cases he
  | cons x xs ih =>
    have hnodup_xs : ((xs.filter (fun x => persisted x)).map Input.name).Nodup := by
      by_cases hx : persisted x = true
      · simp only [List.filter_cons, hx, if_true, List.map_cons, List.nodup_cons] at hnodup
        exact hnodup.2
      · simpa [List.filter_cons, hx] using hnodup
    rcases List.mem_cons.mp he with heq | hmem
    · subst heq
      have hnone : lastPersisted e.name xs = none := by
        cases hl : lastPersisted e.name xs with
        | none => rfl
        | some w =>
          exfalso
          obtain ⟨y, hy, hyp, hyn, _⟩ := lastPersisted_mem e.name xs w hl
          simp only [List.filter_cons, hp, if_true, List.map_cons, List.nodup_cons] at hnodup
          apply hnodup.1
          rw [← hyn]
          exact List.mem_map_of_mem _ (List.mem_filter.mpr ⟨hy, by simpa using hyp⟩)
      simp [lastPersisted, hnone, hp, hproto]
    · have := ih hmem hnodup_xs
      simp [lastPersisted, this]

/-- Without file inputs the restore loop ends without exception, and leaves at
every position what the loop body makes of the field there. -/
theorem restoreInputs_value (browser : Browser) (get : String → Option PropertyView)
    (inputs : List Input) (hfile : ∀ x ∈ inputs, x.type ≠ "file") :
    (restoreInputs browser (.value get) inputs).2 = none ∧
    ∀ (i : Nat) (f : Input), inputs[i]? = some f →
      ∃ r, (restoreInputs browser (.value get) inputs).1[i]? = some r ∧
        restoreInput browser (get f.name) f = .ok r := by
  induction inputs with
  | nil => exact ⟨rfl, by intro i f h; simp at h⟩
  | cons x xs ih =>
    have hx : x.type ≠ "file" := hfile x (List.mem_cons_self _ _)
    obtain ⟨ih1, ih2⟩ := ih (fun y hy => hfile y (List.mem_cons_of_mem _ hy))
    have hok : ∃ r, restoreInput browser (get x.name) x = .ok r := by
      unfold restoreInput
      cases get x.name with
      | none => exact ⟨x, rfl⟩
      | some v =>
        by_cases hc : (v.truthy && x.type != "password") = true
        · simp only [hc, if_true, assignValue, hx, if_false]
          exact ⟨_, rfl⟩
        · simp only [hc]
          exact ⟨x, rfl⟩
    obtain ⟨r, hr⟩ := hok
    have hunf : restoreInputs browser (.value get) (x :: xs)
        = (r :: (restoreInputs browser (.value get) xs).1,
           (restoreInputs browser (.value get) xs).2) := by
      simp [restoreInputs, getProp, hr]
    rw [hunf]
    refine ⟨ih1, ?_⟩
    intro i f hi
    cases i with
    | zero =>
      simp only [List.getElem?_cons_zero, Option.some.injEq] at hi
      subst hi
      exact ⟨r, by simp, hr⟩
    | succ j =>
      simp only [List.getElem?_cons_succ] at hi
      obtain ⟨r2, h1, h2⟩ := ih2 j f hi
      exact ⟨r2, by simpa using h1, h2⟩

theorem resolveFormId_fixed (form : Form) (random : String) (hid : form.id ≠ "") :
    resolveFormId form random = form.id := by
  simp [resolveFormId, hid]

/-- Claim C3, amended: for every autosave form with a fixed id and without file
inputs whose persisted fields have pairwise distinct names, whatever values the
freshly rendered fields hold, saving by the input listener and then running the
load step of `initializeAutoSave` leaves every named non-password field that is
not named `__proto__`, whose last-entered value is not empty and is a value the
rendered control accepts unchanged, equal to that value, and logs no warning. -/
theorem autosave_roundtrip (browser : Browser) (form : Form) (random1 random2 : String)
    (storage : Storage) (entered : List Input) (i : Nat) (e f : Input)
    (hid : form.id ≠ "")
    (hshape : form.inputs.map (fun x => (x.name, x.type))
      = entered.map (fun x => (x.name, x.type)))
    (hfile : ∀ x ∈ form.inputs, x.type ≠ "file")
    (hnodup : ((entered.filter (fun x => persisted x)).map Input.name).Nodup)
    (hi : entered[i]? = some e) (hf : form.inputs[i]? = some f)
    (hp : persisted e = true) (hproto : e.name ≠ "__proto__") (hval : e.value ≠ "")
    (haccept : browser.assignedValue f e.value = e.value) :
    ∃ st r,
      initializeAutoSave browser form random2
          (autoSaveInput browser (resolveFormId form random1) entered storage) = .ok st ∧
      st.warnings = [] ∧ st.inputs[i]? = some r ∧
      r.name = e.name ∧ r.type = e.type ∧ r.value = e.value := by
  have hmem : e ∈ entered := List.mem_iff_getElem?.mpr ⟨i, hi⟩
  have hlast := lastPersisted_of_nodup entered e hmem hp hproto hnodup
  have hprop : ownProperty e.name (buildFormData entered) = some e.value := by
    unfold buildFormData
    rw [ownProperty_foldl, hlast]
  have hshape_i : (form.inputs[i]?).map (fun x => (x.name, x.type)) = some (e.name, e.type) := by
    rw [← List.getElem?_map, hshape, List.getElem?_map, hi]; rfl
  rw [hf] at hshape_i
  have hfe : (f.name, f.type) = (e.name, e.type) := Option.some.inj hshape_i
  have hfn : f.name = e.name := congrArg Prod.fst hfe
  have hft : f.type = e.type := congrArg Prod.snd hfe
  have hty : e.type ≠ "password" := by
    intro h; simp [persisted, h] at hp
  have hffile : f.type ≠ "file" := hfile f (List.mem_iff_getElem?.mpr ⟨i, hf⟩)
  obtain ⟨hnone, hall⟩ := restoreInputs_value browser
    (fun name =>
      match ownProperty name (buildFormData entered) with
      | some v => some { truthy := v != "", text := v }
      | none => browser.objectPrototype name) form.inputs hfile
  obtain ⟨r, hr1, hr2⟩ := hall i f hf
  have hr : r = { f with value := e.value } := by
    have hc : (e.value != "" && f.type != "password") = true := by
      simp [hval, hft, hty]
    simp only [hfn, hprop] at hr2
    unfold restoreInput at hr2
    simp only [hc, if_true, assignValue, hffile, if_false, haccept] at hr2
    exact (Except.ok.inj hr2).symm
  have hload : loadSavedData browser
      (autoSaveInput browser (resolveFormId form random1) entered storage
        ("autosave_" ++ resolveFormId form random2)) form.inputs
      = ((restoreInputs browser (.value (fun name =>
          match ownProperty name (buildFormData entered) with
          | some v => some { truthy := v != "", text := v }
          | none => browser.objectPrototype name)) form.inputs).1, []) := by
    simp only [autoSaveInput, Storage.setItem, resolveFormId_fixed form _ hid, if_true,
      loadSavedData, jsonStringify, StoredText.nonEmpty, jsonParse]
    generalize restoreInputs browser _ form.inputs = res at hnone ⊢
    obtain ⟨a, b⟩ := res
    simp only at hnone
    subst hnone
    rfl
  refine ⟨_, r, rfl, ?_, ?_, ?_, ?_, ?_⟩
  · simp only [hload]
  · simp only [hload]
    exact hr1
  · rw [hr]; exact hfn
  · rw [hr]; exact hft
  · rw [hr]

/-- A form "post" rendered with title "Draft": the title "Hello" entered before
the reload is restored, while the password field is not touched. -/
theorem autosave_roundtrip_witness :
    ∃ st r,
      initializeAutoSave sampleBrowser
          ⟨"post", [⟨"title", "text", "Draft"⟩, ⟨"pw", "password", ""⟩]⟩ "r2"
          (autoSaveInput sampleBrowser
            (resolveFormId ⟨"post", [⟨"title", "text", "Draft"⟩, ⟨"pw", "password", ""⟩]⟩ "r1")
            [⟨"title", "text", "Hello"⟩, ⟨"pw", "password", "secret"⟩]
            (fun _ => none)) = .ok st ∧
      st.warnings = [] ∧ st.inputs[0]? = some r ∧
      r.name = "title" ∧ r.type = "text" ∧ r.value = "Hello" :=
  autosave_roundtrip sampleBrowser
    ⟨"post", [⟨"title", "text", "Draft"⟩, ⟨"pw", "password", ""⟩]⟩ "r1" "r2"
    (fun _ => none) [⟨"title", "text", "Hello"⟩, ⟨"pw", "password", "secret"⟩] 0
    ⟨"title", "text", "Hello"⟩ ⟨"title", "text", "Draft"⟩
    (by decide) (by decide) (by decide) (by decide) (by decide) (by decide) (by decide)
    (by decide) (by decide) rfl

/-- Claim C3, as stated, fails.  A title field rendered with "Draft" and cleared
by the user before the reload comes back as "Draft", the empty saved value being
falsy in the guard of line 462; and of two fields named "tag" with the entered
values "a" and "b" both come back as "b", the record having one entry per
name. -/
theorem restore_skips_empty_and_shared_names :
    (initializeAutoSave sampleBrowser ⟨"post", [⟨"title", "text", "Draft"⟩]⟩ "r2"
        (autoSaveInput sampleBrowser (resolveFormId ⟨"post", [⟨"title", "text", "Draft"⟩]⟩ "r1")
          [⟨"title", "text", ""⟩] (fun _ => none))
      = .ok ⟨"post", [⟨"title", "text", "Draft"⟩], true, true, []⟩ ∧
     ([⟨"title", "text", "Draft"⟩] : List Input).map Input.value
      ≠ ([⟨"title", "text", ""⟩] : List Input).map Input.value) ∧
    (initializeAutoSave sampleBrowser ⟨"tags", [⟨"tag", "text", ""⟩, ⟨"tag", "text", ""⟩]⟩ "r2"
        (autoSaveInput sampleBrowser
          (resolveFormId ⟨"tags", [⟨"tag", "text", ""⟩, ⟨"tag", "text", ""⟩]⟩ "r1")
          [⟨"tag", "text", "a"⟩, ⟨"tag", "text", "b"⟩] (fun _ => none))
      = .ok ⟨"tags", [⟨"tag", "text", "b"⟩, ⟨"tag", "text", "b"⟩], true, true, []⟩ ∧
     ([⟨"tag", "text", "b"⟩, ⟨"tag", "text", "b"⟩] : List Input).map Input.value
      ≠ ([⟨"tag", "text", "a"⟩, ⟨"tag", "text", "b"⟩] : List Input).map Input.value) :=
  ⟨⟨rfl, by decide⟩, ⟨rfl, by decide⟩⟩

/-! ### Password fields and the stored record -/

theorem formDataStep_not_persisted (formData : List (String × String)) (x : Input)
    (h : persisted x ≠ true) : formDataStep formData x = formData := by
  simp [formDataStep, h]

theorem foldl_formDataStep_filter (inputs : List Input) :
    ∀ formData : List (String × String),
      (inputs.filter (fun x => persisted x)).foldl formDataStep formData
        = inputs.foldl formDataStep formData := by
  induction inputs with
  | nil => intro fd; rfl
  | cons x xs ih =>
    intro fd
    by_cases hx : persisted x = true
    · simp only [List.filter_cons, hx, if_true, List.foldl_cons]
      exact ih _
    · simp only [List.filter_cons, hx, List.foldl_cons,
        formDataStep_not_persisted fd x hx]
      exact ih fd

theorem foldl_formDataStep_congr (a b : List Input)
    (h : List.Forall₂
      (fun x y => x.name = y.name ∧ x.type = y.type ∧ (x.type ≠ "password" → x.value = y.value))
      a b) :
    ∀ formData : List (String × String),
      a.foldl formDataStep formData = b.foldl formDataStep formData := by
  induction h with
  | nil => intro fd; rfl
  | @cons x y xs ys hxy _ ih =>
    intro fd
    obtain ⟨hn, ht, hv⟩ := hxy
    have hstep : formDataStep fd x = formDataStep fd y := by
      by_cases hp : x.type = "password"
      · have hp2 : y.type = "password" := ht ▸ hp
        simp [formDataStep, persisted, hp, hp2]
      · have hp2 : ¬ y.type = "password" := fun h2 => hp (ht.trans h2)
        simp [formDataStep, persisted, hp, hp2, ← hn, ← hv hp]
    rw [List.foldl_cons, List.foldl_cons, hstep]
    exact ih _

/-- Claim C4: two states of an autosave form that differ only in the values of
password-typed fields make the input listener write the same storage, the text
under `autosave_` followed by the form id being the serialized record; that
record is the one built from the fields with a non-empty name and a type other
than password alone, and each of its entries is the name and value of such a
field. -/
theorem password_never_persisted (browser : Browser) (formId : String) (storage : Storage)
    (a b : List Input)
    (h : List.Forall₂
      (fun x y => x.name = y.name ∧ x.type = y.type ∧ (x.type ≠ "password" → x.value = y.value))
      a b) :
    autoSaveInput browser formId a storage = autoSaveInput browser formId b storage ∧
    autoSaveInput browser formId a storage ("autosave_" ++ formId)
      = some (jsonStringify browser (buildFormData a)) ∧
    buildFormData a = buildFormData b ∧
    buildFormData a = buildFormData (a.filter (fun x => persisted x)) ∧
    ∀ k v, ownProperty k (buildFormData a) = some v →
      ∃ x ∈ a, x.name = k ∧ x.value = v ∧ x.name ≠ "" ∧ x.type ≠ "password" := by
  have hab : buildFormData a = buildFormData b := foldl_formDataStep_congr a b h []
  refine ⟨?_, ?_, hab, ?_, ?_⟩
  · simp [autoSaveInput, hab]
  · simp [autoSaveInput, Storage.setItem]
  · exact (foldl_formDataStep_filter a []).symm
  · intro k v hkv
    unfold buildFormData at hkv
    rw [ownProperty_foldl] at hkv
    cases hl : lastPersisted k a with
    | none => rw [hl] at hkv; simp [ownProperty] at hkv
    | some w =>
      rw [hl] at hkv
      obtain ⟨x, hx, hp, hn, hval⟩ := lastPersisted_mem k a w hl
      have hw : w = v := Option.some.inj hkv
      refine ⟨x, hx, hn, hval.trans hw, ?_, ?_⟩
      · intro h0; simp [persisted, h0] at hp
      · intro h0; simp [persisted, h0] at hp

/-- Two states of a login form that differ in the password typed write the same
record, which holds the user name only. -/
theorem password_never_persisted_witness :
    autoSaveInput sampleBrowser "login"
        [⟨"user", "text", "ann"⟩, ⟨"pw", "password", "hunter2"⟩] (fun _ => none)
      = autoSaveInput sampleBrowser "login"
        [⟨"user", "text", "ann"⟩, ⟨"pw", "password", "other"⟩] (fun _ => none) ∧
    buildFormData [⟨"user", "text", "ann"⟩, ⟨"pw", "password", "hunter2"⟩] = [("user", "ann")] :=
  ⟨(password_never_persisted sampleBrowser "login" (fun _ => none)
      [⟨"user", "text", "ann"⟩, ⟨"pw", "password", "hunter2"⟩]
      [⟨"user", "text", "ann"⟩, ⟨"pw", "password", "other"⟩]
      (List.Forall₂.cons ⟨rfl, rfl, fun _ => rfl⟩
        (List.Forall₂.cons ⟨rfl, rfl, fun hne => absurd rfl hne⟩ List.Forall₂.nil))).1,
   by decide⟩

/-! ### Malformed stored data -/

/-- Claim C8: when the text stored under `autosave_` followed by the form id
fails to parse as JSON, `initializeAutoSave` returns to its caller without an
error, leaves the value of every field of the form as it was, logs at most the
one warning of the `catch` clause, and has attached the input and submit
listeners. -/
theorem malformed_autosave_tolerated (browser : Browser) (form : Form) (random : String)
    (storage : Storage) (raw : String)
    (h : storage ("autosave_" ++ resolveFormId form random) = some (.malformed raw)) :
    ∃ st, initializeAutoSave browser form random storage = .ok st ∧
      st.inputs = form.inputs ∧
      st.inputListeners = true ∧ st.submitListener = true ∧
      st.warnings = (if raw = "" then [] else ["Failed to load autosave data: SyntaxError"]) := by
  refine ⟨_, rfl, ?_, rfl, rfl, ?_⟩
  · by_cases hr : raw = "" <;>
      simp [loadSavedData, h, StoredText.nonEmpty, jsonParse, hr]
  · by_cases hr : raw = "" <;>
      simp [loadSavedData, h, StoredText.nonEmpty, jsonParse, hr]

/-- A form "post" whose stored text is not JSON keeps its rendered values. -/
theorem malformed_autosave_tolerated_witness :
    ∃ st, initializeAutoSave sampleBrowser ⟨"post", [⟨"title", "text", "Draft"⟩]⟩ "r"
        (fun k => if k = "autosave_post" then some (.malformed "title=Hello") else none)
        = .ok st ∧
      st.inputs = [⟨"title", "text", "Draft"⟩] ∧
      st.inputListeners = true ∧ st.submitListener = true ∧
      st.warnings = (if "title=Hello" = "" then []
        else ["Failed to load autosave data: SyntaxError"]) :=
  malformed_autosave_tolerated sampleBrowser ⟨"post", [⟨"title", "text", "Draft"⟩]⟩ "r"
    (fun k => if k = "autosave_post" then some (.malformed "title=Hello") else none)
    "title=Hello" rfl

end SponsorSync
